import Mathlib

/-!
Verification of the Recording Orchestrator of the activity-recorder
repository (storage, pipeline, coordinator, dispatcher, framing layer).

Each Python function that the claims depend on is shallowly embedded as an
executable Lean definition, translated from the source:

* `storage.py`                  → namespace `Storage`
* `screenshot_agent.py`         → namespace `Screens`
* `workflow.py`                 → namespace `Pipeline`
* `native_host.py`              → namespaces `Wire` (framing and JSON text)
  and `Host` (dispatcher and the recording-loop state machine).

Machine integers are modelled as `Nat`/`Int` (Python integers are unbounded;
the only bounded quantity is the uint32 frame length, handled explicitly).
Python exceptions are modelled with `Except`/`Option`; `try/except` blocks
become explicit `match`es on those values.
-/

namespace PyVal

/-- A JSON value / Python object as carried by the native-messaging layer.
Strings are lists of unicode scalar values.  Python floats are outside the
modelled message space (none of the protocol messages carries one). -/
inductive Json where
  | null : Json
  | bool (b : Bool) : Json
  | int (n : Int) : Json
  | str (s : List Char) : Json
  | arr (xs : List Json) : Json
  | obj (kvs : List (List Char × Json)) : Json

mutual

/-- Boolean equality on `Json` values. -/
def Json.beq : Json → Json → Bool
  | .null, .null => true
  | .bool a, .bool b => a == b
  | .int a, .int b => a == b
  | .str a, .str b => a == b
  | .arr xs, .arr ys => Json.beqList xs ys
  | .obj a, .obj b => Json.beqObj a b
  | _, _ => false

/-- Elementwise equality of `Json` arrays. -/
def Json.beqList : List Json → List Json → Bool
  | [], [] => true
  | x :: xs, y :: ys => Json.beq x y && Json.beqList xs ys
  | _, _ => false

/-- Elementwise equality of `Json` object entry lists. -/
def Json.beqObj : List (List Char × Json) → List (List Char × Json) → Bool
  | [], [] => true
  | (k, v) :: xs, (l, w) :: ys => k == l && Json.beq v w && Json.beqObj xs ys
  | _, _ => false

end

/-- Structural induction for `Json` exposing the members of arrays and the
values of objects. -/
theorem Json.inductionOn (P : Json → Prop)
    (h0 : P .null) (h1 : ∀ b, P (.bool b)) (h2 : ∀ n, P (.int n))
    (h3 : ∀ s, P (.str s))
    (h4 : ∀ xs, (∀ x ∈ xs, P x) → P (.arr xs))
    (h5 : ∀ kvs, (∀ kv ∈ kvs, P kv.2) → P (.obj kvs)) : ∀ j, P j
  | .null => h0
  | .bool b => h1 b
  | .int n => h2 n
  | .str s => h3 s
  | .arr xs => h4 xs (fun x hx =>
      have : sizeOf x < 1 + sizeOf xs := by
        have := List.sizeOf_lt_of_mem hx
        omega
      Json.inductionOn P h0 h1 h2 h3 h4 h5 x)
  | .obj kvs => h5 kvs (fun kv hkv =>
      have : sizeOf kv.2 < 1 + sizeOf kvs := by
        have h := List.sizeOf_lt_of_mem hkv
        obtain ⟨k, v⟩ := kv
        simp only [Prod.mk.sizeOf_spec] at h
        simp only
        omega
      Json.inductionOn P h0 h1 h2 h3 h4 h5 kv.2)
termination_by j => sizeOf j

theorem Json.beq_iff_eq : ∀ a b : Json, Json.beq a b = true ↔ a = b := by
  intro a
  induction a using Json.inductionOn with
  | h0 => intro b; cases b <;> simp [Json.beq]
  | h1 x => intro b; cases b <;> simp [Json.beq]
  | h2 x => intro b; cases b <;> simp [Json.beq]
  | h3 x => intro b; cases b <;> simp [Json.beq]
  | h4 xs ih =>
      intro b
      cases b <;> simp only [Json.beq, Json.arr.injEq] <;> try simp
      case arr ys =>
        induction xs generalizing ys with
        | nil => cases ys <;> simp [Json.beqList]
        | cons x xs ihl =>
            cases ys with
            | nil => simp [Json.beqList]
            | cons y ys =>
                simp only [Json.beqList, Bool.and_eq_true, List.cons.injEq]
                rw [ih x (by simp), ihl (fun z hz => ih z (by simp [hz])) ys]
  | h5 kvs ih =>
      intro b
      cases b <;> simp only [Json.beq, Json.obj.injEq] <;> try simp
      case obj lws =>
        induction kvs generalizing lws with
        | nil => cases lws <;> simp [Json.beqObj]
        | cons kv kvs ihl =>
            obtain ⟨k, v⟩ := kv
            cases lws with
            | nil => simp [Json.beqObj]
            | cons lw lws =>
                obtain ⟨l, w⟩ := lw
                have hv := ih (k, v) (by simp) w
                simp only at hv
                have hrest := ihl (fun z hz => ih z (List.mem_cons_of_mem _ hz)) lws
                simp only [Json.beqObj, Bool.and_eq_true, List.cons.injEq, Prod.mk.injEq]
                rw [hv, hrest]
                constructor
                · rintro ⟨⟨hkl, hvw⟩, hr⟩
                  exact ⟨⟨by simpa using hkl, hvw⟩, hr⟩
                · rintro ⟨⟨hkl, hvw⟩, hr⟩
                  exact ⟨⟨by simpa using hkl, hvw⟩, hr⟩

instance : DecidableEq Json := fun a b =>
  decidable_of_iff (Json.beq a b = true) (Json.beq_iff_eq a b)

instance : Inhabited Json := ⟨Json.null⟩

/-- Python exception kinds that the embedded code distinguishes
(`except ValueError` vs `except TypeError` vs the blanket `except Exception`). -/
inductive PyErr where
  | valueError (msg : String) : PyErr
  | typeError (msg : String) : PyErr
deriving DecidableEq

/-- Python `int(x)` on a JSON-representable value: integers pass through,
booleans become 0/1, strings are parsed as (optionally signed, optionally
space-padded) decimal numerals, everything else raises `TypeError`;
a malformed string raises `ValueError`. -/
def pyInt : Json → Except PyErr Int
  | .int n => .ok n
  | .bool b => .ok (if b then 1 else 0)
  | .str s =>
    let ws : Char → Bool := fun c => c = ' ' ∨ c = '\t' ∨ c = '\n' ∨ c = '\r'
    let t := s.dropWhile ws
    let t := (t.reverse.dropWhile ws).reverse
    let (neg, ds) : Bool × List Char :=
      match t with
      | '-' :: ds => (true, ds)
      | '+' :: ds => (false, ds)
      | ds => (false, ds)
    if ds ≠ [] ∧ ds.all (·.isDigit) then
      let n : Nat := ds.foldl (fun acc c => acc * 10 + (c.toNat - 48)) 0
      .ok (if neg then -(n : Int) else (n : Int))
    else
      .error (.valueError "invalid literal for int() with base 10")
  | .null => .error (.typeError "int() argument cannot be NoneType")
  | .arr _ => .error (.typeError "int() argument cannot be list")
  | .obj _ => .error (.typeError "int() argument cannot be dict")

end PyVal

namespace Pipeline

/-- Result dict returned by `AnalysisAgent.analyze_screenshot`
(analysis_agent.py lines 117-143): every return site carries these four
keys. -/
structure AnalysisResult where
  activity_description : String
  confidence : String
  analysis_successful : Bool
  error : Option String
deriving DecidableEq

/-- The `analysis_result` dict stored in the workflow state: it starts as the
empty dict and is later replaced either by a full `AnalysisResult` or by the
two-key dict `{"analysis_successful": False, "error": msg}` built in the
`except` branch of `_analyze_activity`; absent keys are `none`. -/
structure AnalysisDict where
  activity_description : Option String := none
  confidence : Option String := none
  analysis_successful : Option Bool := none
  error : Option String := none
deriving DecidableEq

end Pipeline

namespace Storage

open PyVal

/-- One record of `activity_log.json`, as written by
`ActivityStorage.save_activity` (storage.py lines 56-64). -/
structure ActivityRecord where
  timestamp : String
  screenshot_path : Option String
  activity_description : Option String
  analysis_result : Option Pipeline.AnalysisDict := none
  confidence : String := "unknown"
  analysis_successful : Bool := false
  error : Option String := none
deriving DecidableEq

/-- The `normalized_limit` computed inside `get_recent_activities`
(storage.py lines 96-103): `None` and unconvertible limits normalise to the
number of stored activities. -/
def normalizedLimit (acts : List ActivityRecord) (limit : Json) : Int :=
  match limit with
  | .null => (acts.length : Int)
  | j =>
    match pyInt j with
    | .ok n => n
    | .error _ => (acts.length : Int)

/-- `ActivityStorage.get_recent_activities` (storage.py lines 79-115).
`acts` is the `activities` array of the log file in append (chronological)
order; `limit` is the Python argument, with `Json.null` modelling Python
`None`.  `activities[-normalized_limit:]` is the last `normalized_limit`
elements; the final `reversed` makes the result newest-first. -/
def get_recent_activities (acts : List ActivityRecord) (limit : Json) :
    List ActivityRecord :=
  if acts.isEmpty then []
  else if normalizedLimit acts limit ≤ 0 then []
  else (acts.drop (acts.length - (normalizedLimit acts limit).toNat)).reverse

/-- `ActivityStorage.get_activities_by_date` (storage.py lines 117-142):
keep the records whose timestamp starts with the given `YYYY-MM-DD` text. -/
def get_activities_by_date (acts : List ActivityRecord) (date : String) :
    List ActivityRecord :=
  acts.filter (fun a => decide ((a.timestamp.toList.take 10) = date.toList))

theorem normalizedLimit_int (acts : List ActivityRecord) (n : Int) :
    normalizedLimit acts (.int n) = n := rfl

theorem normalizedLimit_null (acts : List ActivityRecord) :
    normalizedLimit acts .null = acts.length := rfl

theorem normalizedLimit_of_error (acts : List ActivityRecord) (limit : Json)
    (e : PyErr) (h : pyInt limit = .error e) :
    normalizedLimit acts limit = acts.length := by
  cases limit
  case null => rfl
  all_goals simp [normalizedLimit, h]

/-- Master description of `get_recent_activities`: it always returns a
prefix of the newest-first ordering of the stored records. -/
theorem get_recent_eq_take_reverse (acts : List ActivityRecord) (limit : Json) :
    get_recent_activities acts limit
      = acts.reverse.take (normalizedLimit acts limit).toNat := by
  unfold get_recent_activities
  by_cases ha : acts.isEmpty = true
  · rw [List.isEmpty_iff.mp ha]; simp
  · rw [if_neg ha]
    by_cases hn : normalizedLimit acts limit ≤ 0
    · have h0 : (normalizedLimit acts limit).toNat = 0 := by omega
      rw [if_pos hn, h0]
      simp
    · rw [if_neg hn, List.take_reverse]

/-- **C10.**  For every stored activity log and every limit argument,
`get_recent_activities` returns a newest-first prefix of the stored
records with at most `limit` entries; a limit `≤ 0` yields `[]`; a `None`
(`null`) or unconvertible limit yields all records newest first.  The
function is total (never raises) by construction. -/
theorem claim_C10_get_recent_activities (acts : List ActivityRecord) (limit : Json) :
    (∃ k, get_recent_activities acts limit = acts.reverse.take k)
    ∧ (∀ n : Int, limit = .int n → 0 < n →
        get_recent_activities acts limit = acts.reverse.take n.toNat)
    ∧ (∀ n : Int, limit = .int n → n ≤ 0 →
        get_recent_activities acts limit = [])
    ∧ (limit = .null → get_recent_activities acts limit = acts.reverse)
    ∧ (∀ e, pyInt limit = .error e →
        get_recent_activities acts limit = acts.reverse) := by
  have master := get_recent_eq_take_reverse acts limit
  have htake_all : acts.reverse.take acts.length = acts.reverse := by
    rw [← List.length_reverse acts]
    exact List.take_length acts.reverse
  refine ⟨⟨(normalizedLimit acts limit).toNat, master⟩, ?_, ?_, ?_, ?_⟩
  · intro n hlim _
    rw [master, hlim, normalizedLimit_int]
  · intro n hlim hn
    rw [master, hlim, normalizedLimit_int]
    have : n.toNat = 0 := by omega
    rw [this]
    simp
  · intro hlim
    rw [master, hlim, normalizedLimit_null]
    simp only [Int.toNat_natCast]
    exact htake_all
  · intro e he
    rw [master, normalizedLimit_of_error acts limit e he]
    simp only [Int.toNat_natCast]
    exact htake_all

/-- Sample activity records (oldest `s1` … newest `s5`) used as concrete
witness inputs. -/
def s1 : ActivityRecord :=
  { timestamp := "t1", screenshot_path := some "p1.png",
    activity_description := some "d1" }

def s2 : ActivityRecord :=
  { timestamp := "t2", screenshot_path := some "p2.png",
    activity_description := some "d2" }

def s3 : ActivityRecord :=
  { timestamp := "t3", screenshot_path := some "p3.png",
    activity_description := some "d3" }

def s4 : ActivityRecord :=
  { timestamp := "t4", screenshot_path := some "p4.png",
    activity_description := some "d4" }

def s5 : ActivityRecord :=
  { timestamp := "t5", screenshot_path := some "p5.png",
    activity_description := some "d5" }

/-- Witness for C10 at a concrete log and limit. -/
theorem claim_C10_get_recent_activities_witness :
    Json.int 2 = Json.int 2 ∧ (0:Int) < 2 ∧
      get_recent_activities [s1, s2, s3] (.int 2)
        = [s1, s2, s3].reverse.take ((2:Int)).toNat :=
  ⟨rfl, by decide,
    (claim_C10_get_recent_activities [s1, s2, s3] (.int 2)).2.1 2 rfl (by decide)⟩

end Storage

namespace Pipeline

open PyVal Storage

/-- `ActivityRecorderWorkflow._build_context` (workflow.py lines 161-175):
joins the `timestamp: description` pairs of `recent_activities[-3:]`,
skipping entries whose description is missing or empty. -/
def build_context (recent_activities : List ActivityRecord) : String :=
  if recent_activities.isEmpty then ""
  else
    let lastThree := recent_activities.drop (recent_activities.length - 3)
    let context_parts := lastThree.filterMap (fun a =>
      match a.activity_description with
      | some d => if d = "" then none else some (a.timestamp ++ ": " ++ d)
      | none => none)
    if context_parts.isEmpty then ""
    else "最近的活动: " ++ String.intercalate "; " context_parts

/-- The context string handed to the analysis collaborator by
`ActivityRecorderWorkflow._analyze_activity` (workflow.py lines 86-88):
`get_recent_activities(limit=5)` composed with `_build_context`. -/
def contextFromStorage (acts : List ActivityRecord) : String :=
  build_context (Storage.get_recent_activities acts (.int 5))

/-- **C2.**  The claim is violated by the code: with five stored records
(oldest `d1` … newest `d5`), `get_recent_activities(limit=5)` returns them
newest first, and `_build_context` then keeps the *last three* of that
newest-first list — the 3rd-, 2nd- and 1st-oldest (`d3, d2, d1`) in
newest-first order — instead of the three most recently stored
(`d3, d4, d5`) ordered newest last. -/
theorem claim_C2_context_bug :
    contextFromStorage [s1, s2, s3, s4, s5]
        = "最近的活动: t3: d3; t2: d2; t1: d1"
    ∧ contextFromStorage [s1, s2, s3, s4, s5]
        ≠ "最近的活动: t3: d3; t4: d4; t5: d5" := by
  exact ⟨by decide, by decide⟩

/-- The `ActivityState` TypedDict (workflow.py lines 12-20).
`analysis_result := none` models the initial empty dict. -/
structure ActivityState where
  screenshot_path : String
  screenshot_base64 : String
  activity_description : String
  analysis_result : Option AnalysisDict
  error : Option String
  success : Bool
  timestamp : String
deriving DecidableEq

/-- The `initial_state` built by `run_single_cycle` (workflow.py lines
183-191). -/
def initialState : ActivityState :=
  { screenshot_path := "", screenshot_base64 := "", activity_description := "",
    analysis_result := none, error := none, success := false, timestamp := "" }

/-- One behaviour of the pipeline's collaborators for a single cycle.
Each call site is modelled by an `Except`: `.error msg` is the collaborator
raising (or returning a malformed mapping whose mandatory key lookup raises
— both land in the same `except Exception` clause), `.ok` a normal return.
`now_workflow`/`now_storage` are the two `datetime.now().isoformat()` reads
(workflow.py line 61, storage.py line 57). -/
structure Behaviors where
  capture : Except String (String × String)
  recent : Except String (List Storage.ActivityRecord)
  analyze : Except String AnalysisResult
  save : Except String Bool
  cleanupShots : Except String Unit
  cleanupActs : Except String Unit
  now_workflow : String
  now_storage : String

/-- `ActivityRecorderWorkflow._capture_screenshot` (workflow.py lines 52-76):
on success fills path/base64/timestamp and sets `success=True, error=None`;
the `except` clause records the message and `success=False`. -/
def captureNode (b : Behaviors) (st : ActivityState) : ActivityState :=
  match b.capture with
  | .ok (path, b64) =>
      { st with screenshot_path := path, screenshot_base64 := b64,
                timestamp := b.now_workflow, success := true, error := none }
  | .error e =>
      { st with error := some ("Failed to capture screenshot: " ++ e),
                success := false }

/-- The dict assigned to `analysis_result` in the `except` branch of
`_analyze_activity` (workflow.py line 112). -/
def failedAnalysisDict (msg : String) : AnalysisDict :=
  { analysis_successful := some false, error := some msg }

/-- The full dict assigned to `analysis_result` on a normal return of the
analysis collaborator. -/
def dictOfResult (r : AnalysisResult) : AnalysisDict :=
  { activity_description := some r.activity_description,
    confidence := some r.confidence,
    analysis_successful := some r.analysis_successful,
    error := r.error }

/-- `ActivityRecorderWorkflow._analyze_activity` (workflow.py lines 78-115):
skipped entirely when capture did not succeed; otherwise queries recent
activities (context) and the analysis collaborator inside one `try`.
A normal analysis return — successful or not — updates only
`activity_description` and `analysis_result`, never `success`/`error`;
the `except` clause records the message in `error` (leaving `success`
untouched).  The returned flag says whether the analysis collaborator was
invoked. -/
def analyzeNode (b : Behaviors) (st : ActivityState) : ActivityState × Bool :=
  if st.success = false then (st, false)
  else
    match b.recent with
    | .error e =>
        ({ st with
            error := some ("Failed to analyze activity: " ++ e),
            activity_description := "Analysis failed",
            analysis_result :=
              some (failedAnalysisDict ("Failed to analyze activity: " ++ e)) },
          false)
    | .ok _ =>
        match b.analyze with
        | .ok r =>
            ({ st with
                activity_description := r.activity_description,
                analysis_result := some (dictOfResult r) }, true)
        | .error e =>
            ({ st with
                error := some ("Failed to analyze activity: " ++ e),
                activity_description := "Analysis failed",
                analysis_result :=
                  some (failedAnalysisDict ("Failed to analyze activity: " ++ e)) },
              true)

/-- The record that `ActivityStorage.save_activity` (storage.py lines 52-67)
builds from the `activity_data` dict assembled in `_store_activity`
(workflow.py lines 122-129). -/
def recordOf (b : Behaviors) (st : ActivityState) : Storage.ActivityRecord :=
  { timestamp := b.now_storage,
    screenshot_path := some st.screenshot_path,
    activity_description := some st.activity_description,
    analysis_result := st.analysis_result,
    confidence := (st.analysis_result.bind (·.confidence)).getD "unknown",
    analysis_successful :=
      (st.analysis_result.bind (·.analysis_successful)).getD false,
    error := st.error }

/-- `ActivityRecorderWorkflow._store_activity` (workflow.py lines 117-143):
always runs; a `True` return of `save_activity` appends exactly the built
record, a `False` return appends nothing (storage.py catches internally), a
raising store collaborator is caught and its message overwrites `error`.
The second component lists the records appended to the store. -/
def storeNode (b : Behaviors) (st : ActivityState) :
    ActivityState × List Storage.ActivityRecord :=
  match b.save with
  | .ok true => (st, [recordOf b st])
  | .ok false => (st, [])
  | .error e => ({ st with error := some ("Failed to store activity: " ++ e) }, [])

/-- `ActivityRecorderWorkflow._cleanup` (workflow.py lines 145-159): invokes
both cleanup collaborators; every failure is swallowed and the state is
returned unchanged. -/
def cleanupNode (b : Behaviors) (st : ActivityState) : ActivityState :=
  match b.cleanupShots, b.cleanupActs with
  | _, _ => st

/-- Outcome of one `run_single_cycle` call (workflow.py lines 177-202),
plus the collaborator-invocation trace of the four graph nodes.
`storeCalled`/`cleanupCalled` are `true` by the linear edge structure of the
compiled graph (workflow.py lines 44-48). -/
structure CycleRun where
  result : ActivityState
  analyzeCalled : Bool
  storeCalled : Bool
  cleanupCalled : Bool
  appended : List Storage.ActivityRecord
deriving DecidableEq

/-- `run_single_cycle`: the four stages in graph order.  Every stage is total
(each wraps its fallible calls in `try/except`), hence so is the whole
cycle — the function returns a `CycleRun` for every collaborator
behaviour. -/
def run_single_cycle (b : Behaviors) : CycleRun :=
  let st1 := captureNode b initialState
  let st2 := analyzeNode b st1
  let st3 := storeNode b st2.1
  let st4 := cleanupNode b st3.1
  { result := st4, analyzeCalled := st2.2, storeCalled := true,
    cleanupCalled := true, appended := st3.2 }

/-- A behaviour where the analysis collaborator *returns* a failure dict
(`analysis_successful=False` with an error message) instead of raising. -/
def softFailBehaviour : Behaviors :=
  { capture := .ok ("p.png", "b64"),
    recent := .ok [],
    analyze := .ok { activity_description := "Analysis failed",
                     confidence := "low",
                     analysis_successful := false,
                     error := some "API quota exceeded" },
    save := .ok true,
    cleanupShots := .ok (), cleanupActs := .ok (),
    now_workflow := "tw", now_storage := "ts" }

/-- **C3 counterexample.**  When the analysis collaborator reports failure by
returning `analysis_successful=False` (with an error message), the cycle's
result still has `success=True` and `error=None`: this failure mode is *not*
recorded in the result's success/error fields, only inside
`analysis_result`. -/
theorem claim_C3_counterexample :
    softFailBehaviour.analyze
        = .ok { activity_description := "Analysis failed", confidence := "low",
                analysis_successful := false, error := some "API quota exceeded" }
    ∧ (run_single_cycle softFailBehaviour).result.success = true
    ∧ (run_single_cycle softFailBehaviour).result.error = none
    ∧ (run_single_cycle softFailBehaviour).result.analysis_result
        = some { activity_description := some "Analysis failed",
                 confidence := some "low", analysis_successful := some false,
                 error := some "API quota exceeded" } := by
  exact ⟨rfl, rfl, rfl, rfl⟩

/-- **C3 (amended).**  `run_single_cycle` is total (it returns a `CycleRun`
for every collaborator behaviour — no exception escapes, by the
`try/except` in every stage).  `success` is true exactly when capture
returned normally.  Collaborator *exceptions* are recorded in the result's
`error` field (a store exception overwrites earlier messages); a failure
*returned* by the analysis collaborator is recorded only in
`analysis_result`, with `error=None`. -/
theorem claim_C3_amended (b : Behaviors) :
    ((run_single_cycle b).result.success = true ↔ ∃ pb, b.capture = .ok pb)
    ∧ (∀ e2, b.save = .error e2 →
        (run_single_cycle b).result.error
          = some ("Failed to store activity: " ++ e2))
    ∧ (∀ z, b.save = .ok z →
        ((∀ e, b.capture = .error e →
            (run_single_cycle b).result.error
              = some ("Failed to capture screenshot: " ++ e))
        ∧ (∀ pb, b.capture = .ok pb →
            ((∀ e, b.recent = .error e →
                (run_single_cycle b).result.error
                  = some ("Failed to analyze activity: " ++ e))
            ∧ (∀ r0, b.recent = .ok r0 →
                ((∀ e, b.analyze = .error e →
                    (run_single_cycle b).result.error
                      = some ("Failed to analyze activity: " ++ e))
                ∧ (∀ r, b.analyze = .ok r →
                    (run_single_cycle b).result.error = none
                    ∧ (run_single_cycle b).result.analysis_result
                        = some (dictOfResult r)))))))) := by
  obtain ⟨cap, rec, ana, sav, cs, ca, nw, ns⟩ := b
  refine ⟨?_, ?_, ?_⟩
  · rcases cap with ⟨e⟩ | ⟨⟨p, b64⟩⟩ <;>
      rcases rec with ⟨e1⟩ | ⟨r0⟩ <;>
      rcases ana with ⟨e2⟩ | ⟨r⟩ <;>
      rcases sav with ⟨e3⟩ | ⟨z⟩
    all_goals try cases z
    all_goals simp [run_single_cycle, captureNode, analyzeNode, storeNode,
      cleanupNode]
  · intro e2 h
    subst h
    rcases cap with ⟨e⟩ | ⟨⟨p, b64⟩⟩ <;>
      rcases rec with ⟨e1⟩ | ⟨r0⟩ <;>
      rcases ana with ⟨ea⟩ | ⟨r⟩ <;>
      rfl
  · intro z h
    subst h
    constructor
    · intro e h2
      subst h2
      cases z <;> rfl
    · intro pb h2
      subst h2
      obtain ⟨p, b64⟩ := pb
      constructor
      · intro e h3
        subst h3
        cases z <;> rfl
      · intro r0 h3
        subst h3
        constructor
        · intro e h4
          subst h4
          cases z <;> rfl
        · intro r h4
          subst h4
          cases z <;> exact ⟨rfl, rfl⟩

/-- Witness for the amended C3 at a concrete behaviour (store raises,
capture ok). -/
theorem claim_C3_amended_witness :
    ({ softFailBehaviour with save := .error "disk full" } : Behaviors).save
        = .error "disk full"
    ∧ (run_single_cycle { softFailBehaviour with save := .error "disk full"
        }).result.error = some ("Failed to store activity: " ++ "disk full") :=
  ⟨rfl, (claim_C3_amended
      { softFailBehaviour with save := .error "disk full" }).2.1
    "disk full" rfl⟩

/-- A behaviour whose store stage fails (`save_activity` returns `False`
after its internal `except`): nothing is appended. -/
def storeFailBehaviour : Behaviors :=
  { softFailBehaviour with
    analyze := .ok { activity_description := "coding", confidence := "high",
                     analysis_successful := true, error := none },
    save := .ok false }

/-- **C4 counterexample.**  In a cycle whose store stage fails, *zero*
records are appended to the store, not exactly one: the "exactly one record
appended regardless of which stage fails" part of the claim is false when
the failing stage is the store itself. -/
theorem claim_C4_counterexample :
    storeFailBehaviour.save = .ok false
    ∧ (run_single_cycle storeFailBehaviour).appended.length = 0 := by
  exact ⟨rfl, rfl⟩

/-- **C4 (amended).**  When capture fails, analysis is skipped while store
and cleanup still run, the result has `success=False` with the capture
error, and — whenever the store append itself succeeds — exactly one record
carrying that error is appended.  In general every cycle appends at most
one record, and exactly one iff the store append succeeds. -/
theorem claim_C4_amended (b : Behaviors) :
    ((run_single_cycle b).appended.length ≤ 1)
    ∧ ((run_single_cycle b).appended.length = 1 ↔ b.save = .ok true)
    ∧ ((run_single_cycle b).storeCalled = true)
    ∧ ((run_single_cycle b).cleanupCalled = true)
    ∧ (∀ e, b.capture = .error e →
        (run_single_cycle b).analyzeCalled = false
        ∧ (run_single_cycle b).result.success = false
        ∧ (b.save = .ok true →
            ∃ r, (run_single_cycle b).appended = [r]
              ∧ r.error = some ("Failed to capture screenshot: " ++ e)
              ∧ r.analysis_successful = false
              ∧ r.confidence = "unknown")) := by
  obtain ⟨cap, rec, ana, sav, cs, ca, nw, ns⟩ := b
  refine ⟨?_, ?_, rfl, rfl, ?_⟩
  · rcases sav with ⟨e3⟩ | ⟨z⟩
    · simp [run_single_cycle, storeNode]
    · cases z <;> simp [run_single_cycle, storeNode]
  · rcases sav with ⟨e3⟩ | ⟨z⟩
    · simp [run_single_cycle, storeNode]
    · cases z <;> simp [run_single_cycle, storeNode]
  · intro e h
    subst h
    refine ⟨?_, ?_, ?_⟩
    · cases sav <;> rfl
    · cases sav with
      | ok z => cases z <;> rfl
      | error e2 => rfl
    · intro h2
      subst h2
      exact ⟨_, rfl, rfl, rfl, rfl⟩

/-- Witness for the amended C4: capture raising with a healthy store. -/
theorem claim_C4_amended_witness :
    ({ softFailBehaviour with capture := .error "no display" } : Behaviors).capture
        = .error "no display"
    ∧ (run_single_cycle
        { softFailBehaviour with capture := .error "no display" }).analyzeCalled
        = false := by
  refine ⟨rfl, ?_⟩
  exact ((claim_C4_amended
      { softFailBehaviour with capture := .error "no display" }).2.2.2.2
    "no display" rfl).1

end Pipeline

namespace Screens

/-- A directory entry: file name plus its `os.path.getctime` value. -/
structure FileEntry where
  name : String
  ctime : Nat
deriving DecidableEq

/-- Python `str.endswith` over the characters of the two strings. -/
def strEndsWith (s t : List Char) : Bool :=
  decide (s.drop (s.length - t.length) = t)

/-- The `f.endswith('.png')` test of the directory-listing comprehension. -/
def isPng (f : FileEntry) : Bool :=
  strEndsWith f.name.toList ['.', 'p', 'n', 'g']

/-- The `key=os.path.getctime` sort order. -/
def ctimeLe (a b : FileEntry) : Bool := decide (a.ctime ≤ b.ctime)

/-- `ScreenshotAgent.cleanup_old_screenshots` (screenshot_agent.py lines
82-105) over a model directory listing; `dirExists` models
`os.path.exists(self.screenshot_dir)`.
`screenshot_files.sort(key=getctime)` is a stable ascending sort;
`screenshot_files[:-keep_last_n]` is empty when `keep_last_n = 0`
(Python `l[:-0]` is `l[:0]`) and otherwise drops the last `keep_last_n`
elements.  Removed entries disappear from the directory (the swallowed
`OSError` branch does not fire in this model). -/
def cleanup_old_screenshots (dirExists : Bool) (dir : List FileEntry)
    (keep_last_n : Nat) : List FileEntry :=
  if dirExists = false then dir
  else
    let screenshot_files := dir.filter isPng
    if screenshot_files.length ≤ keep_last_n then dir
    else
      let sorted := screenshot_files.mergeSort ctimeLe
      let files_to_remove :=
        if keep_last_n = 0 then []
        else sorted.take (sorted.length - keep_last_n)
      dir.filter (fun f => !(files_to_remove.contains f))

/-- **C9 counterexample.**  With `N = 0` and one screenshot present
(`N + k` files for `k = 1`), the claim demands that the single (oldest)
file be removed; the code removes nothing, because the Python slice
`screenshot_files[:-0]` is empty. -/
theorem claim_C9_counterexample :
    cleanup_old_screenshots true [⟨"screenshot_1.png", 1⟩] 0
        = [⟨"screenshot_1.png", 1⟩]
    ∧ cleanup_old_screenshots true [⟨"screenshot_1.png", 1⟩] 0 ≠ [] := by
  have h : cleanup_old_screenshots true [⟨"screenshot_1.png", 1⟩] 0
      = [⟨"screenshot_1.png", 1⟩] := by
    unfold cleanup_old_screenshots
    simp only [List.mergeSort_singleton]
    decide
  exact ⟨h, by rw [h]; decide⟩

/-- **C9 (amended).**  For a retention bound `N ≥ 1` (the code's callers use
`N = 50`): a directory whose `.png` entries have pairwise distinct creation
times and number `N + k` with `k ≥ 1` is cleaned to exactly the `N` most
recent `.png` entries — a `.png` entry survives iff fewer than `N` of the
`.png` entries are strictly newer — while non-`.png` entries are untouched;
with `N` or fewer `.png` entries the directory is left unchanged.
(The claim as frozen also asserted removal for `N = 0`, which the code does
not perform.) -/
theorem claim_C9_amended (dir : List Screens.FileEntry) (N : Nat) :
    ((dir.filter isPng).length ≤ N → cleanup_old_screenshots true dir N = dir)
    ∧ (∀ k, 1 ≤ N → 1 ≤ k → (dir.filter isPng).length = N + k →
        (dir.filter isPng).Pairwise (fun a b => a.ctime ≠ b.ctime) →
        ((cleanup_old_screenshots true dir N).filter isPng).length = N
        ∧ (∀ f ∈ dir, isPng f = false → f ∈ cleanup_old_screenshots true dir N)
        ∧ cleanup_old_screenshots true dir N ⊆ dir
        ∧ (∀ f ∈ dir, isPng f = true →
            (f ∈ cleanup_old_screenshots true dir N ↔
              ((dir.filter isPng).filter
                  (fun g => decide (f.ctime < g.ctime))).length < N))) := by
  constructor
  · intro hle
    unfold cleanup_old_screenshots
    rw [if_neg (by simp), if_pos hle]
  · intro k hN hk hcount hdist
    set pngs := dir.filter isPng with hpngs
    set sorted := pngs.mergeSort ctimeLe with hsortedDef
    set A := sorted.take (sorted.length - N) with hAdef
    set B := sorted.drop (sorted.length - N) with hBdef
    have hnotle : ¬ (pngs.length ≤ N) := by omega
    have hres : cleanup_old_screenshots true dir N
        = dir.filter (fun f => !(A.contains f)) := by
      unfold cleanup_old_screenshots
      rw [if_neg (by simp)]
      simp only [← hpngs]
      rw [if_neg hnotle]
      simp only [if_neg (show ¬ N = 0 from by omega), ← hsortedDef, ← hAdef]
    have hperm : sorted.Perm pngs := List.mergeSort_perm pngs ctimeLe
    have hlen : sorted.length = N + k := by rw [hperm.length_eq, hcount]
    have hAB : A ++ B = sorted := List.take_append_drop _ _
    have hlenA : A.length = k := by
      show (sorted.take (sorted.length - N)).length = k
      rw [List.length_take, inf_eq_min]
      omega
    have hlenB : B.length = N := by
      show (sorted.drop (sorted.length - N)).length = N
      rw [List.length_drop]
      omega
    have htrans : ∀ a b c : FileEntry,
        ctimeLe a b = true → ctimeLe b c = true → ctimeLe a c = true := by
      intro a b c hab hbc
      simp only [ctimeLe, decide_eq_true_eq] at *
      omega
    have htotal : ∀ a b : FileEntry, (ctimeLe a b || ctimeLe b a) = true := by
      intro a b
      simp only [ctimeLe, Bool.or_eq_true, decide_eq_true_eq]
      omega
    have hsortedLe : sorted.Pairwise (fun a b => a.ctime ≤ b.ctime) :=
      (List.sorted_mergeSort htrans htotal pngs).imp
        (by intro a b h; simpa [ctimeLe] using h)
    have hdistSorted : sorted.Pairwise (fun a b => a.ctime ≠ b.ctime) :=
      (hperm.pairwise_iff (fun h => h.symm)).mpr hdist
    have hcross : ∀ a ∈ A, ∀ b ∈ B, a.ctime < b.ctime := by
      intro a ha b hb
      have hle := (List.pairwise_append.mp (hAB ▸ hsortedLe)).2.2 a ha b hb
      have hne := (List.pairwise_append.mp (hAB ▸ hdistSorted)).2.2 a ha b hb
      omega
    have hnodupSorted : sorted.Nodup :=
      hdistSorted.imp (fun hab heq => hab (by rw [heq]))
    have hdisj : A.Disjoint B := (List.nodup_append.mp (hAB ▸ hnodupSorted)).2.2
    -- counting: for a png entry f, the number of strictly newer png entries
    have hcountA : ∀ f ∈ A,
        N ≤ (pngs.filter (fun g => decide (f.ctime < g.ctime))).length := by
      intro f hfA
      rw [← List.countP_eq_length_filter]
      rw [(hperm.countP_eq _).symm, ← hAB, List.countP_append]
      have hB : List.countP (fun g => decide (f.ctime < g.ctime)) B = B.length :=
        List.countP_eq_length.mpr (fun b hb => by
          simpa using hcross f hfA b hb)
      omega
    have hcountB : ∀ f ∈ B,
        (pngs.filter (fun g => decide (f.ctime < g.ctime))).length < N := by
      intro f hfB
      rw [← List.countP_eq_length_filter]
      rw [(hperm.countP_eq _).symm, ← hAB, List.countP_append]
      have hA0 : List.countP (fun g => decide (f.ctime < g.ctime)) A = 0 :=
        List.countP_eq_zero.mpr (fun a ha => by
          have := hcross a ha f hfB
          simp only [decide_eq_true_eq]
          omega)
      have hBle : List.countP (fun g => decide (f.ctime < g.ctime)) B ≤ B.length :=
        List.countP_le_length _
      have hBne : List.countP (fun g => decide (f.ctime < g.ctime)) B ≠ B.length := by
        intro heq
        have hall := List.countP_eq_length.mp heq f hfB
        simp at hall
      omega
    have hmemA : ∀ f, f ∈ A → f ∈ pngs := by
      intro f hf
      have hs : f ∈ sorted := hAB ▸ List.mem_append.mpr (Or.inl hf)
      exact List.mem_mergeSort.mp (show f ∈ pngs.mergeSort ctimeLe from hs)
    -- membership in the result
    have hmem : ∀ f, f ∈ cleanup_old_screenshots true dir N ↔ f ∈ dir ∧ f ∉ A := by
      intro f
      rw [hres]
      rw [List.mem_filter]
      constructor
      · rintro ⟨hfd, hq⟩
        refine ⟨hfd, fun hfA => ?_⟩
        rw [Bool.not_eq_true', ← Bool.not_eq_true] at hq
        exact hq (List.elem_iff.mpr hfA)
      · rintro ⟨hfd, hfA⟩
        refine ⟨hfd, ?_⟩
        simp only [Bool.not_eq_true']
        rw [← Bool.not_eq_true]
        intro hc
        exact hfA (List.elem_iff.mp hc)
    refine ⟨?_, ?_, ?_, ?_⟩
    · -- exactly N png entries survive
      rw [hres, List.filter_filter, ← List.countP_eq_length_filter]
      have hsplit := List.length_eq_countP_add_countP (fun f => (A.contains f)) pngs
      have hc1 : List.countP (fun f => (A.contains f)) pngs = A.length := by
        rw [(hperm.countP_eq _).symm, ← hAB, List.countP_append]
        have h1 : List.countP (fun f => (A.contains f)) A = A.length :=
          List.countP_eq_length.mpr (fun a ha => List.elem_iff.mpr ha)
        have h2 : List.countP (fun f => (A.contains f)) B = 0 :=
          List.countP_eq_zero.mpr (fun b hb hc =>
            hdisj (List.elem_iff.mp hc) hb)
        omega
      have hc2 : List.countP (fun a => isPng a && !(A.contains a)) dir
          = List.countP (fun f => !(A.contains f)) pngs := by
        rw [hpngs, List.countP_filter]
        exact List.countP_congr (fun x _ => by
          cases h1 : isPng x <;> cases h2 : A.contains x <;> simp [h1, h2])
      rw [hc2]
      have hcompl : List.countP (fun f => !(A.contains f)) pngs
          = List.countP (fun f => decide (¬ ((A.contains f) = true))) pngs :=
        List.countP_congr (fun x _ => by cases h : A.contains x <;> simp [h])
      rw [hcompl]
      omega
    · -- non-png entries are untouched
      intro f hf hfpng
      rw [hmem f]
      refine ⟨hf, fun hfA => ?_⟩
      have := List.mem_filter.mp (hmemA f hfA)
      rw [hfpng] at this
      exact absurd this.2 (by simp)
    · -- the result is a sublist of the directory
      intro f hf
      exact ((hmem f).mp hf).1
    · -- a png entry survives iff fewer than N png entries are newer
      intro f hf hfpng
      rw [hmem f]
      have hfp : f ∈ pngs := by
        rw [hpngs]
        exact List.mem_filter.mpr ⟨hf, hfpng⟩
      have hfs : f ∈ A ∨ f ∈ B := by
        rw [← List.mem_append, hAB]
        exact show f ∈ pngs.mergeSort ctimeLe from List.mem_mergeSort.mpr hfp
      constructor
      · rintro ⟨-, hfA⟩
        rcases hfs with h | h
        · exact absurd h hfA
        · exact hcountB f h
      · intro hcnt
        rcases hfs with h | h
        · exact absurd (hcountA f h) (by omega)
        · exact ⟨hf, fun hfA => hdisj hfA h⟩

/-- Witness for the amended C9: two screenshots, retention 1, the newer one
survives. -/
theorem claim_C9_amended_witness :
    (1:Nat) ≤ 1 ∧ (1:Nat) ≤ 1
    ∧ (([⟨"a.png", 1⟩, ⟨"b.png", 2⟩] : List FileEntry).filter isPng).length = 1 + 1
    ∧ ((cleanup_old_screenshots true [⟨"a.png", 1⟩, ⟨"b.png", 2⟩] 1).filter
        isPng).length = 1 := by
  refine ⟨le_refl 1, le_refl 1, by decide, ?_⟩
  exact ((claim_C9_amended [⟨"a.png", 1⟩, ⟨"b.png", 2⟩] 1).2 1 (le_refl 1)
    (le_refl 1) (by decide) (by decide)).1

end Screens

namespace Wire

open PyVal

/-! ### `json.dumps` (default separators `", "` and `": "`, `ensure_ascii=True`)

The byte payload written by `NativeMessagingHost._send_message`
(native_host.py line 142) is `json.dumps(message).encode('utf-8')`.
With CPython's default arguments the produced text is pure ASCII: every
character outside `0x20..0x7e` (and `"`/`\`) is escaped. -/

/-- Lowercase hex digit, as emitted by CPython's `\uXXXX` escapes. -/
def hexDigit (n : Nat) : Char :=
  if n < 10 then Char.ofNat (48 + n) else Char.ofNat (87 + n)

/-- Four-digit hex form of `n < 0x10000`. -/
def hex4 (n : Nat) : List Char :=
  [hexDigit (n / 4096 % 16), hexDigit (n / 256 % 16),
   hexDigit (n / 16 % 16), hexDigit (n % 16)]

/-- CPython's `py_encode_basestring_ascii` escape of one character:
two-character escapes for the usual controls and `"`/`\`, printable ASCII
unchanged, everything else `\uXXXX` (a surrogate pair above `0xFFFF`). -/
def escapeChar (c : Char) : List Char :=
  if c = '"' then ['\\', '"']
  else if c = '\\' then ['\\', '\\']
  else if c = '\n' then ['\\', 'n']
  else if c = '\r' then ['\\', 'r']
  else if c = '\t' then ['\\', 't']
  else if c = Char.ofNat 8 then ['\\', 'b']
  else if c = Char.ofNat 12 then ['\\', 'f']
  else if 0x20 ≤ c.toNat ∧ c.toNat < 0x7f then [c]
  else if c.toNat < 0x10000 then '\\' :: 'u' :: hex4 c.toNat
  else
    ('\\' :: 'u' :: hex4 (0xd800 + (c.toNat - 0x10000) / 0x400))
      ++ ('\\' :: 'u' :: hex4 (0xdc00 + (c.toNat - 0x10000) % 0x400))

/-- The quoted, escaped form of a JSON string. -/
def dumpStr (s : List Char) : List Char :=
  '"' :: s.flatMap escapeChar ++ ['"']

/-- Decimal digits of `n`, most significant first (empty for 0). -/
def natDigits : Nat → List Char
  | 0 => []
  | n + 1 => natDigits ((n + 1) / 10) ++ [Char.ofNat (48 + (n + 1) % 10)]
decreasing_by exact Nat.div_lt_self (Nat.succ_pos n) (by omega)

/-- Decimal representation of a natural number. -/
def natRepr (n : Nat) : List Char := if n = 0 then ['0'] else natDigits n

/-- Python's decimal representation of an integer. -/
def intRepr (n : Int) : List Char :=
  if n < 0 then '-' :: natRepr n.natAbs else natRepr n.toNat

mutual

/-- `json.dumps` of a value, with the default `", "`/`": "` separators. -/
def dumpVal : Json → List Char
  | .null => ['n', 'u', 'l', 'l']
  | .bool false => ['f', 'a', 'l', 's', 'e']
  | .bool true => ['t', 'r', 'u', 'e']
  | .int n => intRepr n
  | .str s => dumpStr s
  | .arr [] => ['[', ']']
  | .arr (x :: xs) => '[' :: (dumpVal x ++ dumpArrTail xs) ++ [']']
  | .obj [] => ['\x7b', '\x7d']
  | .obj ((k, v) :: kvs) =>
      '\x7b' :: (dumpStr k ++ ':' :: ' ' :: dumpVal v ++ dumpObjTail kvs)
        ++ ['\x7d']

/-- The `", "`-separated remainder of an array dump. -/
def dumpArrTail : List Json → List Char
  | [] => []
  | x :: xs => ',' :: ' ' :: (dumpVal x ++ dumpArrTail xs)

/-- The `", "`-separated remainder of an object dump. -/
def dumpObjTail : List (List Char × Json) → List Char
  | [] => []
  | (k, v) :: kvs =>
      ',' :: ' ' :: (dumpStr k ++ ':' :: ' ' :: dumpVal v ++ dumpObjTail kvs)

end

/-! ### `json.loads`

The JSON grammar as accepted by CPython's scanner, restricted to the
modelled message space: a numeric literal continuing with `.`/`e`/`E`
denotes a Python float, which no `Json` value represents, so the parser
declines it; likewise a lone surrogate `\uXXXX` escape (representable as a
Python string but not as unicode scalar values) is declined.  No protocol
message of this host contains either. -/

/-- The whitespace skipped by the scanner (`' '`, `\t`, `\n`, `\r`). -/
def isWs (c : Char) : Bool := c = ' ' ∨ c = '\t' ∨ c = '\n' ∨ c = '\r'

def skipWs (cs : List Char) : List Char := cs.dropWhile isWs

/-- Value of one hex digit (`\uXXXX` escapes accept both cases). -/
def hexVal (c : Char) : Option Nat :=
  if '0' ≤ c ∧ c ≤ '9' then some (c.toNat - 48)
  else if 'a' ≤ c ∧ c ≤ 'f' then some (c.toNat - 87)
  else if 'A' ≤ c ∧ c ≤ 'F' then some (c.toNat - 55)
  else none

/-- Value of four hex digits. -/
def hexVal4 (h1 h2 h3 h4 : Char) : Option Nat :=
  match hexVal h1, hexVal h2, hexVal h3, hexVal h4 with
  | some d1, some d2, some d3, some d4 =>
      some (((d1 * 16 + d2) * 16 + d3) * 16 + d4)
  | _, _, _, _ => none

/-- The single-character backslash escapes of the scanner's `BACKSLASH`
table. -/
def escDecode (e : Char) : Option Char :=
  if e = '"' then some '"'
  else if e = '\\' then some '\\'
  else if e = '/' then some '/'
  else if e = 'b' then some (Char.ofNat 8)
  else if e = 'f' then some (Char.ofNat 12)
  else if e = 'n' then some '\n'
  else if e = 'r' then some '\r'
  else if e = 't' then some '\t'
  else none

mutual

/-- String-body scanner (`py_scanstring`, strict mode): stops at the closing
quote, decodes the backslash escapes, rejects raw control characters; a
high surrogate escape must be completed by a low one (see the namespace
comment). -/
def parseStrBody : List Char → Option (List Char × List Char)
  | [] => none
  | c :: rest =>
    if c = '"' then some ([], rest)
    else if c = '\\' then parseEscape rest
    else if c.toNat < 0x20 then none
    else (parseStrBody rest).map (fun p => (c :: p.1, p.2))

/-- The part of the scanner after a backslash. -/
def parseEscape : List Char → Option (List Char × List Char)
  | 'u' :: h1 :: h2 :: h3 :: h4 :: rest2 =>
    (match hexVal4 h1 h2 h3 h4 with
    | none => none
    | some n =>
      if 0xd800 ≤ n ∧ n < 0xdc00 then parseLowSurrogate n rest2
      else if 0xdc00 ≤ n ∧ n < 0xe000 then none
      else (parseStrBody rest2).map (fun p => (Char.ofNat n :: p.1, p.2)))
  | e :: rest2 =>
    (match escDecode e with
    | some c => (parseStrBody rest2).map (fun p => (c :: p.1, p.2))
    | none => none)
  | [] => none

/-- The mandatory low-surrogate escape after a high surrogate `n`. -/
def parseLowSurrogate : Nat → List Char → Option (List Char × List Char)
  | n, '\\' :: 'u' :: g1 :: g2 :: g3 :: g4 :: rest3 =>
    (match hexVal4 g1 g2 g3 g4 with
    | none => none
    | some m =>
      if 0xdc00 ≤ m ∧ m < 0xe000 then
        (parseStrBody rest3).map (fun p =>
          (Char.ofNat (0x10000 + (n - 0xd800) * 0x400 + (m - 0xdc00))
            :: p.1, p.2))
      else none)
  | _, _ => none

end

/-- The digit class of `NUMBER_RE`'s `\d`. -/
def isDig (c : Char) : Bool := decide (48 ≤ c.toNat ∧ c.toNat ≤ 57)

/-- Greedy digit run (`NUMBER_RE`'s `\d*`), accumulating onto `acc`. -/
def parseDigits : List Char → Nat → Nat × List Char
  | c :: rest, acc =>
      if isDig c then parseDigits rest (acc * 10 + (c.toNat - 48))
      else (acc, c :: rest)
  | [], acc => (acc, [])

/-- The integer part of `NUMBER_RE`: `0`, or a nonzero digit followed by a
greedy digit run. -/
def parseIntTail : List Char → Option (Nat × List Char)
  | [] => none
  | c :: rest =>
      if c = '0' then some (0, rest)
      else if isDig c then some (parseDigits rest (c.toNat - 48))
      else none

/-- Declines a numeric literal continuing as a float (see the namespace
comment). -/
def floatGuard : List Char → Option (List Char)
  | [] => some []
  | c :: rest =>
      if c = '.' ∨ c = 'e' ∨ c = 'E' then none else some (c :: rest)

/-- A JSON number restricted to integers. -/
def parseNum : List Char → Option (Int × List Char)
  | [] => none
  | c :: cs =>
    if c = '-' then
      (parseIntTail cs).bind fun p =>
        (floatGuard p.2).map fun r => (-(p.1 : Int), r)
    else
      (parseIntTail (c :: cs)).bind fun p =>
        (floatGuard p.2).map fun r => ((p.1 : Int), r)

/-- Python-dict insertion: replace in place if the key exists, else append
(the scanner executes `dict[key] = value` per member). -/
def dictInsert (m : List (List Char × Json)) (k : List Char) (v : Json) :
    List (List Char × Json) :=
  if m.any (fun kv => kv.1 = k) then
    m.map (fun kv => if kv.1 = k then (k, v) else kv)
  else m ++ [(k, v)]

mutual

/-- One JSON value (`_scan_once`), with fuel bounding the nesting: the
scanner dispatches on the first character (`"`, `\x7b`, `[`, the three
literals, or a number). -/
def parseVal : Nat → List Char → Option (Json × List Char)
  | 0, _ => none
  | fuel + 1, cs =>
    match cs with
    | [] => none
    | c :: rest =>
      if c = 'n' then
        match rest with
        | 'u' :: 'l' :: 'l' :: r => some (.null, r)
        | _ => none
      else if c = 't' then
        match rest with
        | 'r' :: 'u' :: 'e' :: r => some (.bool true, r)
        | _ => none
      else if c = 'f' then
        match rest with
        | 'a' :: 'l' :: 's' :: 'e' :: r => some (.bool false, r)
        | _ => none
      else if c = '"' then (parseStrBody rest).map (fun p => (.str p.1, p.2))
      else if c = '[' then
        match skipWs rest with
        | [] => none
        | d :: rest1 =>
          if d = ']' then some (.arr [], rest1)
          else (parseElems fuel (d :: rest1)).map (fun p => (.arr p.1, p.2))
      else if c = '\x7b' then
        match skipWs rest with
        | [] => none
        | d :: rest1 =>
          if d = '\x7d' then some (.obj [], rest1)
          else (parseMembers fuel (d :: rest1) []).map (fun p => (.obj p.1, p.2))
      else (parseNum (c :: rest)).map (fun p => (.int p.1, p.2))

/-- The elements of a non-empty array: value, then `]` or `,` + more. -/
def parseElems : Nat → List Char → Option (List Json × List Char)
  | 0, _ => none
  | fuel + 1, cs =>
    (parseVal fuel cs).bind fun p =>
      match skipWs p.2 with
      | [] => none
      | d :: r2 =>
        if d = ']' then some ([p.1], r2)
        else if d = ',' then
          (parseElems fuel (skipWs r2)).map fun q => (p.1 :: q.1, q.2)
        else none

/-- The members of a non-empty object: `"key": value`, then `\x7d` or `,` +
more, accumulated by dict insertion. -/
def parseMembers : Nat → List Char → List (List Char × Json) →
    Option (List (List Char × Json) × List Char)
  | 0, _, _ => none
  | fuel + 1, cs, acc =>
    match cs with
    | [] => none
    | c :: rest =>
      if c = '"' then
        (parseStrBody rest).bind fun pk =>
          match skipWs pk.2 with
          | [] => none
          | d :: r2 =>
            if d = ':' then
              (parseVal fuel (skipWs r2)).bind fun pv =>
                match skipWs pv.2 with
                | [] => none
                | e :: r4 =>
                  if e = ',' then
                    parseMembers fuel (skipWs r4) (dictInsert acc pk.1 pv.1)
                  else if e = '\x7d' then some (dictInsert acc pk.1 pv.1, r4)
                  else none
            else none
      else none

end

/-- `json.loads`: strip surrounding whitespace, scan one value, require the
input to be exhausted.  The fuel `cs.length + 1` dominates any nesting the
input can express. -/
def loads (cs : List Char) : Option Json :=
  match parseVal (cs.length + 1) (skipWs cs) with
  | some p => if skipWs p.2 = [] then some p.1 else none
  | none => none

/-! ### UTF-8 -/

/-- `str.encode('utf-8')` of one scalar value. -/
def utf8EncodeChar (c : Char) : List Nat :=
  let n := c.toNat
  if n < 0x80 then [n]
  else if n < 0x800 then [0xc0 + n / 0x40, 0x80 + n % 0x40]
  else if n < 0x10000 then
    [0xe0 + n / 0x1000, 0x80 + n / 0x40 % 0x40, 0x80 + n % 0x40]
  else
    [0xf0 + n / 0x40000, 0x80 + n / 0x1000 % 0x40,
     0x80 + n / 0x40 % 0x40, 0x80 + n % 0x40]

def utf8Encode (s : List Char) : List Nat := s.flatMap utf8EncodeChar

/-- One scalar of `bytes.decode('utf-8')` (strict): the decoded code point
and the remaining bytes; rejects bad leads, bad continuations, overlong
forms, surrogates and values beyond `0x10FFFF`. -/
def utf8Step (b : Nat) (rest : List Nat) : Option (Nat × List Nat) :=
  if b < 0x80 then some (b, rest)
  else if b < 0xc2 then none
  else if b < 0xe0 then
    match rest with
    | b2 :: rest2 =>
      if 0x80 ≤ b2 ∧ b2 < 0xc0 then
        some ((b - 0xc0) * 0x40 + (b2 - 0x80), rest2)
      else none
    | [] => none
  else if b < 0xf0 then
    match rest with
    | b2 :: b3 :: rest2 =>
      if 0x80 ≤ b2 ∧ b2 < 0xc0 ∧ 0x80 ≤ b3 ∧ b3 < 0xc0 then
        let n := (b - 0xe0) * 0x1000 + (b2 - 0x80) * 0x40 + (b3 - 0x80)
        if 0x800 ≤ n ∧ (n < 0xd800 ∨ 0xe000 ≤ n) then some (n, rest2) else none
      else none
    | _ => none
  else if b < 0xf5 then
    match rest with
    | b2 :: b3 :: b4 :: rest2 =>
      if 0x80 ≤ b2 ∧ b2 < 0xc0 ∧ 0x80 ≤ b3 ∧ b3 < 0xc0
          ∧ 0x80 ≤ b4 ∧ b4 < 0xc0 then
        let n := (b - 0xf0) * 0x40000 + (b2 - 0x80) * 0x1000
          + (b3 - 0x80) * 0x40 + (b4 - 0x80)
        if 0x10000 ≤ n ∧ n < 0x110000 then some (n, rest2) else none
      else none
    | _ => none
  else none

/-- `bytes.decode('utf-8')` (strict), one scalar per unit of fuel; each
scalar consumes at least one byte, so fuel `≥` the byte count suffices. -/
def utf8DecodeF : Nat → List Nat → Option (List Char)
  | _, [] => some []
  | 0, _ :: _ => none
  | fuel + 1, b :: rest =>
    match utf8Step b rest with
    | some (n, rest2) => (utf8DecodeF fuel rest2).map (Char.ofNat n :: ·)
    | none => none

/-- `bytes.decode('utf-8')` (strict). -/
def utf8Decode (bs : List Nat) : Option (List Char) := utf8DecodeF bs.length bs

/-! ### Frames -/

/-- `struct.pack('=I', n)`: four little-endian bytes; raises for
`n ≥ 2^32`. -/
def packLen (n : Nat) : Option (List Nat) :=
  if n < 2 ^ 32 then
    some [n % 256, n / 256 % 256, n / 65536 % 256, n / 16777216 % 256]
  else none

/-- `struct.unpack('=I', ...)` of four bytes. -/
def unpackLen (b0 b1 b2 b3 : Nat) : Nat :=
  b0 % 256 + 256 * (b1 % 256) + 65536 * (b2 % 256) + 16777216 * (b3 % 256)

/-- `NativeMessagingHost._send_message` (native_host.py lines 133-155):
JSON-encode, UTF-8-encode, write the 4-byte length then the payload.
`struct.pack` raising (payload of `2^32` bytes or more) is caught by the
handler's blanket `except` before anything was written. -/
def send_message (m : Json) : List Nat :=
  let payload := utf8Encode (dumpVal m)
  match packLen payload.length with
  | some hdr => hdr ++ payload
  | none => []

/-- The synthetic command produced for a JSON decode failure
(native_host.py line 128). -/
def errorCmd : Json :=
  .obj [("command".toList, .str "error".toList),
        ("error".toList, .str "Invalid JSON".toList)]

/-- `NativeMessagingHost._read_message` (native_host.py lines 99-131) on a
(closed) byte stream.  First component: the value returned to the loop
(`none` terminates it); second: the unconsumed stream.
* under 4 bytes available: 0 bytes is the clean EOF return, 1-3 make
  `struct.unpack` raise, landing in the blanket `except` — both return
  `None`;
* a payload that is not valid UTF-8 raises `UnicodeDecodeError`, which is
  not a `json.JSONDecodeError`, so the blanket `except` returns `None`;
* a payload that is not valid JSON yields the synthetic error command;
* a decoded non-dict makes the logging line's `message.get` raise
  `AttributeError` (line 122), again landing in the blanket `except`. -/
def read_message (stream : List Nat) : Option Json × List Nat :=
  match stream with
  | b0 :: b1 :: b2 :: b3 :: rest =>
    let len := unpackLen b0 b1 b2 b3
    let remaining := rest.drop len
    match utf8Decode (rest.take len) with
    | none => (none, remaining)
    | some text =>
      match loads text with
      | none => (some errorCmd, remaining)
      | some (.obj kvs) => (some (.obj kvs), remaining)
      | some _ => (none, remaining)
  | _ => (none, stream.drop 4)

/-! ### Roundtrip: strings -/

theorem skipWs_cons_of_not_ws {c : Char} (cs : List Char)
    (h : isWs c = false) : skipWs (c :: cs) = c :: cs := by
  simp [skipWs, List.dropWhile, h]

theorem skipWs_space (cs : List Char) : skipWs (' ' :: cs) = skipWs cs := by
  simp [skipWs, List.dropWhile, isWs]

theorem hexVal_hexDigit {d : Nat} (h : d < 16) :
    hexVal (hexDigit d) = some d := by
  interval_cases d <;> rfl

/-- The scalar value of a `Char` is never a surrogate and is below
`0x110000`. -/
theorem char_scalar (c : Char) :
    c.toNat < 0xd800 ∨ (0xdfff < c.toNat ∧ c.toNat < 0x110000) := by
  have h := c.valid
  unfold UInt32.isValidChar at h
  unfold Nat.isValidChar at h
  exact h

theorem hexVal4_hex4 {n : Nat} (h : n < 0x10000) :
    hexVal4 (hexDigit (n / 4096 % 16)) (hexDigit (n / 256 % 16))
      (hexDigit (n / 16 % 16)) (hexDigit (n % 16)) = some n := by
  unfold hexVal4
  rw [hexVal_hexDigit (by omega), hexVal_hexDigit (by omega),
    hexVal_hexDigit (by omega), hexVal_hexDigit (by omega)]
  simp only
  congr 1
  omega

theorem parseStrBody_backslash (rest : List Char) :
    parseStrBody ('\\' :: rest) = parseEscape rest := by
  simp [parseStrBody]

theorem parseStrBody_quote (rest : List Char) :
    parseStrBody ('"' :: rest) = some ([], rest) := by
  simp [parseStrBody]

theorem parseStrBody_plain (c : Char) (rest : List Char) (h1 : ¬ c = '"')
    (h2 : ¬ c = '\\') (h3 : ¬ c.toNat < 0x20) :
    parseStrBody (c :: rest)
      = (parseStrBody rest).map (fun p => (c :: p.1, p.2)) := by
  simp only [parseStrBody]
  rw [if_neg h1, if_neg h2, if_neg h3]

theorem parseEscape_hex (m : Nat) (tail : List Char) (hm : m < 0x10000) :
    parseEscape ('u' :: (hex4 m ++ tail))
      = (if 0xd800 ≤ m ∧ m < 0xdc00 then parseLowSurrogate m tail
        else if 0xdc00 ≤ m ∧ m < 0xe000 then none
        else (parseStrBody tail).map (fun p => (Char.ofNat m :: p.1, p.2))) := by
  have h4 := hexVal4_hex4 hm
  unfold hex4
  simp only [List.cons_append, List.nil_append]
  simp only [parseEscape]
  rw [h4]

theorem parseLowSurrogate_hex (n m : Nat) (tail : List Char)
    (hm : m < 0x10000) :
    parseLowSurrogate n ('\\' :: 'u' :: (hex4 m ++ tail))
      = (if 0xdc00 ≤ m ∧ m < 0xe000 then
          (parseStrBody tail).map (fun p =>
            (Char.ofNat (0x10000 + (n - 0xd800) * 0x400 + (m - 0xdc00))
              :: p.1, p.2))
        else none) := by
  have h4 := hexVal4_hex4 hm
  unfold hex4
  simp only [List.cons_append, List.nil_append]
  simp only [parseLowSurrogate]
  rw [h4]

theorem parseStrBody_escape (c : Char) (cs' : List Char) :
    parseStrBody (escapeChar c ++ cs')
      = (parseStrBody cs').map (fun p => (c :: p.1, p.2)) := by
  by_cases h1 : c = '"'
  · subst h1; rfl
  by_cases h2 : c = '\\'
  · subst h2; rfl
  by_cases h3 : c = '\n'
  · subst h3; rfl
  by_cases h4 : c = '\r'
  · subst h4; rfl
  by_cases h5 : c = '\t'
  · subst h5; rfl
  by_cases h6 : c = Char.ofNat 8
  · subst h6; rfl
  by_cases h7 : c = Char.ofNat 12
  · subst h7; rfl
  by_cases h8 : 0x20 ≤ c.toNat ∧ c.toNat < 0x7f
  · -- printable: emitted verbatim
    have he : escapeChar c = [c] := by
      unfold escapeChar
      rw [if_neg h1, if_neg h2, if_neg h3, if_neg h4, if_neg h5, if_neg h6,
        if_neg h7, if_pos h8]
    rw [he]
    show parseStrBody (c :: cs') = _
    exact parseStrBody_plain c cs' h1 h2 (by omega)
  by_cases h9 : c.toNat < 0x10000
  · -- escaped as a single \uXXXX
    have he : escapeChar c = '\\' :: 'u' :: hex4 c.toNat := by
      unfold escapeChar
      rw [if_neg h1, if_neg h2, if_neg h3, if_neg h4, if_neg h5, if_neg h6,
        if_neg h7, if_neg h8, if_pos h9]
    rw [he]
    have hvalid := char_scalar c
    show parseStrBody ('\\' :: ('u' :: (hex4 c.toNat ++ cs'))) = _
    rw [parseStrBody_backslash, parseEscape_hex c.toNat cs' h9]
    rw [if_neg (by omega : ¬ (0xd800 ≤ c.toNat ∧ c.toNat < 0xdc00)),
      if_neg (by omega : ¬ (0xdc00 ≤ c.toNat ∧ c.toNat < 0xe000))]
    rw [Char.ofNat_toNat]
  · -- astral plane: surrogate pair
    have hvalid := char_scalar c
    set hi := 0xd800 + (c.toNat - 0x10000) / 0x400 with hhidef
    set lo := 0xdc00 + (c.toNat - 0x10000) % 0x400 with hlodef
    have hhi : 0xd800 ≤ hi ∧ hi < 0xdc00 := by
      constructor
      · omega
      · have : (c.toNat - 0x10000) / 0x400 < 0x400 := by omega
        omega
    have hlo : 0xdc00 ≤ lo ∧ lo < 0xe000 := by
      constructor
      · omega
      · have : (c.toNat - 0x10000) % 0x400 < 0x400 := by omega
        omega
    have he : escapeChar c
        = ('\\' :: 'u' :: hex4 hi) ++ ('\\' :: 'u' :: hex4 lo) := by
      unfold escapeChar
      rw [if_neg h1, if_neg h2, if_neg h3, if_neg h4, if_neg h5, if_neg h6,
        if_neg h7, if_neg h8, if_neg h9]
    rw [he]
    have hstep : (('\\' :: 'u' :: hex4 hi) ++ ('\\' :: 'u' :: hex4 lo)) ++ cs'
        = '\\' :: ('u' :: (hex4 hi ++ ('\\' :: 'u' :: (hex4 lo ++ cs')))) := by
      simp
    rw [hstep, parseStrBody_backslash, parseEscape_hex hi _ (by omega)]
    rw [if_pos hhi]
    rw [parseLowSurrogate_hex hi lo cs' (by omega)]
    rw [if_pos hlo]
    have harith : 0x10000 + (hi - 0xd800) * 0x400 + (lo - 0xdc00) = c.toNat := by
      omega
    rw [harith, Char.ofNat_toNat]

theorem parseStrBody_dump (s : List Char) (rest : List Char) :
    parseStrBody (s.flatMap escapeChar ++ '"' :: rest) = some (s, rest) := by
  induction s with
  | nil => rfl
  | cons c cs ih =>
      rw [List.flatMap_cons, List.append_assoc, parseStrBody_escape, ih]
      rfl

/-! ### Roundtrip: numbers -/

theorem toNat_digitChar {r : Nat} (h : r < 10) :
    (Char.ofNat (48 + r)).toNat = 48 + r := by
  interval_cases r <;> rfl

theorem isDig_digitChar {r : Nat} (h : r < 10) :
    isDig (Char.ofNat (48 + r)) = true := by
  interval_cases r <;> rfl

theorem digitChar_ne_zero {r : Nat} (h : r < 10) (h0 : r ≠ 0) :
    Char.ofNat (48 + r) ≠ '0' := by
  intro hc
  have := congrArg Char.toNat hc
  rw [toNat_digitChar h] at this
  simp at this
  omega

/-- The digit accumulation step of `parseDigits`. -/
def digitStep (a : Nat) (c : Char) : Nat := a * 10 + (c.toNat - 48)

theorem natDigits_spec : ∀ m : Nat,
    (∀ c ∈ natDigits m, isDig c = true)
    ∧ (∀ acc, (natDigits m).foldl digitStep acc
        = acc * 10 ^ (natDigits m).length + m) := by
  intro m
  induction m using Nat.strong_induction_on with
  | _ m ih =>
    match m with
    | 0 => exact ⟨by simp [natDigits], by simp [natDigits]⟩
    | n + 1 =>
      have hlt : (n + 1) / 10 < n + 1 := Nat.div_lt_self (Nat.succ_pos n) (by omega)
      obtain ⟨ihd, ihf⟩ := ih ((n + 1) / 10) hlt
      constructor
      · intro c hc
        simp only [natDigits] at hc
        rcases List.mem_append.mp hc with h | h
        · exact ihd c h
        · simp only [List.mem_singleton] at h
          subst h
          exact isDig_digitChar (by omega)
      · intro acc
        simp only [natDigits]
        rw [List.foldl_append, ihf acc, List.length_append]
        simp only [List.foldl_cons, List.foldl_nil, List.length_cons,
          List.length_nil]
        unfold digitStep
        rw [toNat_digitChar (by omega)]
        rw [pow_succ]
        have hdm : (n + 1) % 10 + 10 * ((n + 1) / 10) = n + 1 :=
          Nat.mod_add_div (n + 1) 10
        ring_nf
        omega

theorem natDigits_head : ∀ m : Nat, m ≠ 0 →
    ∃ c cs, natDigits m = c :: cs ∧ isDig c = true ∧ c ≠ '0' := by
  intro m
  induction m using Nat.strong_induction_on with
  | _ m ih =>
    match m with
    | 0 => intro h; exact absurd rfl h
    | n + 1 =>
      intro _
      by_cases h10 : (n + 1) / 10 = 0
      · have hn : n + 1 < 10 := by omega
        have hmod : (n + 1) % 10 = n + 1 := Nat.mod_eq_of_lt hn
        refine ⟨Char.ofNat (48 + (n + 1) % 10), [], ?_, isDig_digitChar (by omega),
          digitChar_ne_zero (by omega) (by omega)⟩
        simp only [natDigits, h10]
        rfl
      · obtain ⟨c, cs, hcs, hdig, hne⟩ := ih ((n + 1) / 10)
          (Nat.div_lt_self (Nat.succ_pos n) (by omega)) h10
        refine ⟨c, cs ++ [Char.ofNat (48 + (n + 1) % 10)], ?_, hdig, hne⟩
        simp only [natDigits]
        rw [hcs]
        rfl

theorem natRepr_head (m : Nat) :
    ∃ c cs, natRepr m = c :: cs ∧ isDig c = true := by
  by_cases h : m = 0
  · subst h
    exact ⟨'0', [], rfl, by decide⟩
  · obtain ⟨c, cs, hcs, hdig, _⟩ := natDigits_head m h
    exact ⟨c, cs, by simp [natRepr, h, hcs], hdig⟩

theorem intRepr_head (n : Int) :
    ∃ c cs, intRepr n = c :: cs ∧ (c = '-' ∨ isDig c = true) := by
  by_cases h : n < 0
  · exact ⟨'-', natRepr n.natAbs, by simp [intRepr, h], Or.inl rfl⟩
  · obtain ⟨c, cs, hcs, hdig⟩ := natRepr_head n.toNat
    exact ⟨c, cs, by simp [intRepr, h, hcs], Or.inr hdig⟩

/-- The continuation after a greedy digit run must not start with another
digit. -/
def noDigitHead : List Char → Prop
  | [] => True
  | c :: _ => isDig c = false

theorem parseDigits_append : ∀ (ds rest : List Char) (acc : Nat),
    (∀ c ∈ ds, isDig c = true) → noDigitHead rest →
    parseDigits (ds ++ rest) acc = (ds.foldl digitStep acc, rest) := by
  intro ds
  induction ds with
  | nil =>
      intro rest acc _ hrest
      cases rest with
      | nil => rfl
      | cons c r =>
          simp only [List.nil_append, List.foldl_nil, parseDigits]
          rw [if_neg (by simp [noDigitHead] at hrest; simp [hrest])]
  | cons c cs ih =>
      intro rest acc hds hrest
      simp only [List.cons_append, parseDigits, List.foldl_cons]
      rw [if_pos (hds c (by simp))]
      exact ih rest _ (fun x hx => hds x (by simp [hx])) hrest

theorem parseIntTail_repr : ∀ (m : Nat) (rest : List Char), noDigitHead rest →
    parseIntTail (natRepr m ++ rest) = some (m, rest) := by
  intro m rest hrest
  by_cases h : m = 0
  · subst h
    show parseIntTail ('0' :: rest) = some (0, rest)
    simp [parseIntTail]
  · obtain ⟨c, cs, hcs, hdig, hne⟩ := natDigits_head m h
    have hrepr : natRepr m = c :: cs := by simp [natRepr, h, hcs]
    rw [hrepr]
    show parseIntTail (c :: (cs ++ rest)) = some (m, rest)
    simp only [parseIntTail]
    rw [if_neg hne, if_pos hdig]
    have hall := (natDigits_spec m).1
    rw [hcs] at hall
    rw [parseDigits_append cs rest _ (fun x hx => hall x (by simp [hx])) hrest]
    have hfold := (natDigits_spec m).2 0
    rw [hcs] at hfold
    simp only [List.foldl_cons] at hfold
    have : digitStep 0 c = c.toNat - 48 := by simp [digitStep]
    rw [this] at hfold
    rw [hfold]
    simp

/-- The continuation after a numeric literal: not a digit and not a float
continuation. -/
def numBoundary : List Char → Prop
  | [] => True
  | c :: _ => isDig c = false ∧ c ≠ '.' ∧ c ≠ 'e' ∧ c ≠ 'E'

theorem numBoundary_noDigit {rest : List Char} (h : numBoundary rest) :
    noDigitHead rest := by
  cases rest with
  | nil => trivial
  | cons c r => exact h.1

theorem floatGuard_boundary {rest : List Char} (h : numBoundary rest) :
    floatGuard rest = some rest := by
  cases rest with
  | nil => rfl
  | cons c r =>
      obtain ⟨-, h2, h3, h4⟩ := h
      simp [floatGuard, h2, h3, h4]

theorem parseNum_intRepr (n : Int) (rest : List Char) (h : numBoundary rest) :
    parseNum (intRepr n ++ rest) = some (n, rest) := by
  have hnb := numBoundary_noDigit h
  by_cases hn : n < 0
  · have hrepr : intRepr n = '-' :: natRepr n.natAbs := by simp [intRepr, hn]
    rw [hrepr]
    show parseNum ('-' :: (natRepr n.natAbs ++ rest)) = some (n, rest)
    have h1 := parseIntTail_repr n.natAbs rest hnb
    have h2 := floatGuard_boundary h
    simp only [parseNum, if_true, h1, h2, Option.some_bind, Option.map_some]
    have h3 : -(n.natAbs : Int) = n := by omega
    rw [h3]
    rfl
  · obtain ⟨c, cs, hcs, hdig⟩ := natRepr_head n.toNat
    have hrepr : intRepr n = c :: cs := by simp [intRepr, hn, hcs]
    rw [hrepr]
    show parseNum (c :: (cs ++ rest)) = some (n, rest)
    simp only [parseNum]
    have hcne : ¬ c = '-' := by
      intro hc
      rw [hc] at hdig
      exact absurd hdig (by decide)
    rw [if_neg hcne]
    have hre : c :: (cs ++ rest) = natRepr n.toNat ++ rest := by rw [hcs]; rfl
    have h1 := parseIntTail_repr n.toNat rest hnb
    have h2 := floatGuard_boundary h
    rw [hre]
    simp only [h1, h2, Option.some_bind, Option.map_some]
    have h3 : ((n.toNat : Int)) = n := by omega
    rw [h3]
    rfl

/-! ### Roundtrip: values -/

theorem ne_of_toNat {c d : Char} (h : c.toNat ≠ d.toNat) : c ≠ d :=
  fun hc => h (congrArg Char.toNat hc)

theorem isDig_toNat {c : Char} (h : isDig c = true) :
    48 ≤ c.toNat ∧ c.toNat ≤ 57 := by
  simpa [isDig] using h

theorem not_isWs_of_toNat {c : Char} (h32 : c.toNat ≠ 32) (h9 : c.toNat ≠ 9)
    (h10 : c.toNat ≠ 10) (h13 : c.toNat ≠ 13) : isWs c = false := by
  simp only [isWs, decide_eq_false_iff_not]
  push_neg
  exact ⟨ne_of_toNat h32, ne_of_toNat h9, ne_of_toNat h10, ne_of_toNat h13⟩

/-- Every dumped value starts with a non-whitespace character that is
neither `]` nor `\x7d`. -/
theorem dump_head (v : Json) : ∃ c cs, dumpVal v = c :: cs
    ∧ isWs c = false ∧ c ≠ ']' ∧ c ≠ '\x7d' := by
  cases v with
  | null => exact ⟨'n', _, rfl, by decide, by decide, by decide⟩
  | bool b =>
      cases b with
      | false => exact ⟨'f', _, rfl, by decide, by decide, by decide⟩
      | true => exact ⟨'t', _, rfl, by decide, by decide, by decide⟩
  | int n =>
      obtain ⟨c, cs, hcs, hd⟩ := intRepr_head n
      refine ⟨c, cs, hcs, ?_, ?_, ?_⟩
      · rcases hd with h | h
        · subst h; decide
        · obtain ⟨h1, h2⟩ := isDig_toNat h
          exact not_isWs_of_toNat (by omega) (by omega) (by omega) (by omega)
      · rcases hd with h | h
        · subst h; decide
        · obtain ⟨h1, h2⟩ := isDig_toNat h
          have hb : (']').toNat = 93 := rfl
          exact ne_of_toNat (by omega)
      · rcases hd with h | h
        · subst h; decide
        · obtain ⟨h1, h2⟩ := isDig_toNat h
          have hb : ('\x7d').toNat = 125 := rfl
          exact ne_of_toNat (by omega)
  | str s => exact ⟨'"', _, rfl, by decide, by decide, by decide⟩
  | arr xs =>
      cases xs with
      | nil => exact ⟨'[', _, rfl, by decide, by decide, by decide⟩
      | cons x xs => exact ⟨'[', _, rfl, by decide, by decide, by decide⟩
  | obj kvs =>
      cases kvs with
      | nil => exact ⟨'\x7b', _, rfl, by decide, by decide, by decide⟩
      | cons kv kvs =>
          obtain ⟨k, v⟩ := kv
          exact ⟨'\x7b', _, rfl, by decide, by decide, by decide⟩

theorem skipWs_dump (v : Json) (rest : List Char) :
    skipWs (dumpVal v ++ rest) = dumpVal v ++ rest := by
  obtain ⟨c, cs, hcs, hws, -, -⟩ := dump_head v
  rw [hcs, List.cons_append]
  exact skipWs_cons_of_not_ws _ hws

/-- Well-formedness of a message: every object in the tree has pairwise
distinct keys (Python dicts cannot carry duplicates). -/
def wfJson : Json → Bool
  | .null | .bool _ | .int _ | .str _ => true
  | .arr xs => xs.attach.all (fun x => wfJson x.1)
  | .obj kvs =>
      decide ((kvs.map (fun kv => kv.1)).Nodup)
        && kvs.attach.all (fun kv => wfJson kv.1.2)
decreasing_by
  · have := List.sizeOf_lt_of_mem x.2
    simp only [Json.arr.sizeOf_spec]
    omega
  · have h := List.sizeOf_lt_of_mem kv.2
    obtain ⟨⟨k, v⟩, hm⟩ := kv
    simp only [Prod.mk.sizeOf_spec] at h
    simp only [Json.obj.sizeOf_spec]
    omega

/-- Fuel sufficient for `parseVal` on the dump of one value. -/
def fuelV : Json → Nat
  | .null => 1
  | .bool _ => 1
  | .int _ => 1
  | .str _ => 1
  | .arr xs => 1 + (xs.attach.map (fun x => 1 + fuelV x.1)).sum
  | .obj kvs => 1 + (kvs.attach.map (fun kv => 1 + fuelV kv.1.2)).sum
decreasing_by
  · have := List.sizeOf_lt_of_mem x.2
    simp only [Json.arr.sizeOf_spec]
    omega
  · have h := List.sizeOf_lt_of_mem kv.2
    obtain ⟨⟨k, v⟩, hm⟩ := kv
    simp only [Prod.mk.sizeOf_spec] at h
    simp only [Json.obj.sizeOf_spec]
    omega

/-- Fuel sufficient for `parseElems` on a dumped element list. -/
def fuelE (xs : List Json) : Nat := (xs.map (fun x => 1 + fuelV x)).sum

/-- Fuel sufficient for `parseMembers` on a dumped member list. -/
def fuelM (kvs : List (List Char × Json)) : Nat :=
  (kvs.map (fun kv => 1 + fuelV kv.2)).sum

theorem fuelV_arr (xs : List Json) : fuelV (.arr xs) = 1 + fuelE xs := by
  unfold fuelV fuelE
  congr 1
  exact congrArg List.sum (List.attach_map_coe xs (fun y => 1 + fuelV y))

theorem fuelV_obj (kvs : List (List Char × Json)) :
    fuelV (.obj kvs) = 1 + fuelM kvs := by
  unfold fuelV fuelM
  congr 1
  exact congrArg List.sum
    (List.attach_map_coe kvs (fun kv => 1 + fuelV kv.2))

theorem fuelV_pos (v : Json) : 1 ≤ fuelV v := by
  cases v with
  | arr xs => rw [fuelV_arr]; omega
  | obj kvs => rw [fuelV_obj]; omega
  | null => simp [fuelV]
  | bool b => simp [fuelV]
  | int n => simp [fuelV]
  | str s => simp [fuelV]

theorem wfJson_arr {xs : List Json} :
    wfJson (.arr xs) = true ↔ ∀ x ∈ xs, wfJson x = true := by
  simp [wfJson, List.all_eq_true]

theorem wfJson_obj {kvs : List (List Char × Json)} :
    wfJson (.obj kvs) = true ↔
      (kvs.map (fun kv => kv.1)).Nodup ∧ ∀ kv ∈ kvs, wfJson kv.2 = true := by
  simp [wfJson, List.all_eq_true]

theorem dictInsert_fresh (acc : List (List Char × Json)) (k : List Char)
    (v : Json) (h : ∀ kv ∈ acc, kv.1 ≠ k) :
    dictInsert acc k v = acc ++ [(k, v)] := by
  unfold dictInsert
  rw [if_neg]
  intro hm
  rw [List.any_eq_true] at hm
  obtain ⟨kv, hkv, heq⟩ := hm
  exact h kv hkv (by simpa using heq)

theorem numBoundary_arrTail (xs : List Json) (rest : List Char) :
    numBoundary (dumpArrTail xs ++ ']' :: rest) := by
  cases xs with
  | nil => exact ⟨by decide, by decide, by decide, by decide⟩
  | cons y ys =>
      show numBoundary (',' :: _)
      exact ⟨by decide, by decide, by decide, by decide⟩

theorem numBoundary_objTail (kvs : List (List Char × Json)) (rest : List Char) :
    numBoundary (dumpObjTail kvs ++ '\x7d' :: rest) := by
  cases kvs with
  | nil => exact ⟨by decide, by decide, by decide, by decide⟩
  | cons kv kvs =>
      obtain ⟨k, v⟩ := kv
      show numBoundary (',' :: _)
      exact ⟨by decide, by decide, by decide, by decide⟩

/-- The scanner inverts the printer: simultaneously for values, array
elements and object members, by induction on the fuel. -/
theorem parse_dump_main : ∀ fuel : Nat,
    (∀ v rest, wfJson v = true → fuelV v ≤ fuel → numBoundary rest →
      parseVal fuel (dumpVal v ++ rest) = some (v, rest))
    ∧ (∀ x xs rest, (∀ y ∈ x :: xs, wfJson y = true) → fuelE (x :: xs) ≤ fuel →
      parseElems fuel (dumpVal x ++ (dumpArrTail xs ++ ']' :: rest))
        = some (x :: xs, rest))
    ∧ (∀ k v kvs acc rest, (∀ kv ∈ (k, v) :: kvs, wfJson kv.2 = true) →
      ((acc ++ (k, v) :: kvs).map (fun kv => kv.1)).Nodup →
      fuelM ((k, v) :: kvs) ≤ fuel →
      parseMembers fuel
        (dumpStr k ++ ':' :: ' '
          :: (dumpVal v ++ (dumpObjTail kvs ++ '\x7d' :: rest))) acc
        = some (acc ++ (k, v) :: kvs, rest)) := by
  intro fuel
  induction fuel with
  | zero =>
      refine ⟨?_, ?_, ?_⟩
      · intro v rest _ hf _
        have := fuelV_pos v
        omega
      · intro x xs rest _ hf
        have := fuelV_pos x
        simp only [fuelE, List.map_cons, List.sum_cons] at hf
        omega
      · intro k v kvs acc rest _ _ hf
        have := fuelV_pos v
        simp only [fuelM, List.map_cons, List.sum_cons] at hf
        omega
  | succ f ih =>
      obtain ⟨ihP, ihQ, ihR⟩ := ih
      refine ⟨?_, ?_, ?_⟩
      · -- values
        intro v rest hwf hf hnb
        cases v with
        | null =>
            rw [show dumpVal Json.null = ['n', 'u', 'l', 'l'] from by
              simp [dumpVal]]
            simp [parseVal]
        | bool b =>
            cases b with
            | false =>
                rw [show dumpVal (Json.bool false) = ['f', 'a', 'l', 's', 'e']
                  from by simp [dumpVal]]
                simp [parseVal]
            | true =>
                rw [show dumpVal (Json.bool true) = ['t', 'r', 'u', 'e'] from by
                  simp [dumpVal]]
                simp [parseVal]
        | int n =>
            rw [show dumpVal (Json.int n) = intRepr n from by simp [dumpVal]]
            obtain ⟨c, cs, hcs, hdisj⟩ := intRepr_head n
            have hfacts : ¬ c = 'n' ∧ ¬ c = 't' ∧ ¬ c = 'f' ∧ ¬ c = '"'
                ∧ ¬ c = '[' ∧ ¬ c = '\x7b' := by
              rcases hdisj with h | h
              · subst h
                exact ⟨by decide, by decide, by decide, by decide, by decide,
                  by decide⟩
              · obtain ⟨h1, h2⟩ := isDig_toNat h
                refine ⟨ne_of_toNat ?_, ne_of_toNat ?_, ne_of_toNat ?_,
                  ne_of_toNat ?_, ne_of_toNat ?_, ne_of_toNat ?_⟩
                · have : ('n').toNat = 110 := rfl
                  omega
                · have : ('t').toNat = 116 := rfl
                  omega
                · have : ('f').toNat = 102 := rfl
                  omega
                · have : ('"').toNat = 34 := rfl
                  omega
                · have : ('[').toNat = 91 := rfl
                  omega
                · have : ('\x7b').toNat = 123 := rfl
                  omega
            rw [hcs, List.cons_append]
            simp only [parseVal]
            rw [if_neg hfacts.1, if_neg hfacts.2.1, if_neg hfacts.2.2.1,
              if_neg hfacts.2.2.2.1, if_neg hfacts.2.2.2.2.1,
              if_neg hfacts.2.2.2.2.2]
            rw [← List.cons_append, ← hcs, parseNum_intRepr n rest hnb]
            rfl
        | str s =>
            rw [show dumpVal (Json.str s) = dumpStr s from by simp [dumpVal]]
            show parseVal (f + 1)
              ('"' :: ((s.flatMap escapeChar ++ ['"']) ++ rest)) = _
            simp only [parseVal, if_true]
            rw [show s.flatMap escapeChar ++ ['"'] ++ rest
                = s.flatMap escapeChar ++ '"' :: rest from by simp]
            rw [parseStrBody_dump]
            rfl
        | arr xs =>
            cases xs with
            | nil =>
                rw [show dumpVal (Json.arr []) = ['[', ']'] from by
                  simp [dumpVal]]
                show parseVal (f + 1) ('[' :: (']' :: rest)) = _
                simp only [parseVal, if_true]
                rw [skipWs_cons_of_not_ws _ (by decide)]
                simp
            | cons x xs =>
                rw [show dumpVal (Json.arr (x :: xs))
                    = '[' :: (dumpVal x ++ dumpArrTail xs) ++ [']'] from by
                  simp [dumpVal]]
                rw [show ('[' :: (dumpVal x ++ dumpArrTail xs) ++ [']']) ++ rest
                    = '[' :: (dumpVal x ++ (dumpArrTail xs ++ ']' :: rest))
                  from by simp]
                simp only [parseVal, if_true]
                rw [skipWs_dump x (dumpArrTail xs ++ ']' :: rest)]
                obtain ⟨c0, cs0, hc0, hws0, hne0, hne0b⟩ := dump_head x
                rw [hc0, List.cons_append]
                simp only [hne0, if_false]
                rw [← List.cons_append, ← hc0]
                rw [ihQ x xs rest (wfJson_arr.mp hwf)
                  (by rw [fuelV_arr] at hf; omega)]
                rfl
        | obj kvs =>
            cases kvs with
            | nil =>
                rw [show dumpVal (Json.obj []) = ['\x7b', '\x7d'] from by
                  simp [dumpVal]]
                show parseVal (f + 1) ('\x7b' :: ('\x7d' :: rest)) = _
                simp only [parseVal, if_true]
                rw [skipWs_cons_of_not_ws _ (by decide)]
                simp
            | cons kv kvs =>
                obtain ⟨k, v⟩ := kv
                rw [show dumpVal (Json.obj ((k, v) :: kvs))
                    = '\x7b' :: (dumpStr k ++ ':' :: ' ' :: dumpVal v
                      ++ dumpObjTail kvs) ++ ['\x7d'] from by simp [dumpVal]]
                rw [show ('\x7b' :: (dumpStr k ++ ':' :: ' ' :: dumpVal v
                      ++ dumpObjTail kvs) ++ ['\x7d']) ++ rest
                    = '\x7b' :: ('"' :: ((k.flatMap escapeChar ++ ['"'])
                      ++ (':' :: ' ' :: (dumpVal v
                        ++ (dumpObjTail kvs ++ '\x7d' :: rest)))))
                  from by simp [dumpStr]]
                simp only [parseVal, if_true]
                rw [skipWs_cons_of_not_ws _ (by decide)]
                simp only [if_neg (show ¬ ('"') = '\x7d' from by decide)]
                rw [show ('"' : Char) :: ((k.flatMap escapeChar ++ ['"'])
                      ++ (':' :: ' ' :: (dumpVal v
                        ++ (dumpObjTail kvs ++ '\x7d' :: rest))))
                    = dumpStr k ++ ':' :: ' ' :: (dumpVal v
                      ++ (dumpObjTail kvs ++ '\x7d' :: rest)) from by
                  simp [dumpStr]]
                have hobj := wfJson_obj.mp hwf
                rw [ihR k v kvs [] rest hobj.2 (by simpa using hobj.1)
                  (by rw [fuelV_obj] at hf; omega)]
                simp
      · -- array elements
        intro x xs rest hwf hf
        simp only [parseElems]
        have hfx : fuelV x ≤ f := by
          simp only [fuelE, List.map_cons, List.sum_cons] at hf
          omega
        rw [ihP x (dumpArrTail xs ++ ']' :: rest) (hwf x (by simp)) hfx
          (numBoundary_arrTail xs rest)]
        simp only [Option.some_bind]
        cases xs with
        | nil =>
            rw [show dumpArrTail [] ++ ']' :: rest = ']' :: rest from by
              simp [dumpArrTail]]
            rw [skipWs_cons_of_not_ws _ (by decide)]
            simp
        | cons y ys =>
            rw [show dumpArrTail (y :: ys) ++ ']' :: rest
                = ',' :: (' ' :: (dumpVal y
                  ++ (dumpArrTail ys ++ ']' :: rest))) from by
              simp [dumpArrTail]]
            rw [skipWs_cons_of_not_ws _ (by decide)]
            simp only [if_neg (show ¬ (',') = ']' from by decide), if_pos rfl]
            rw [skipWs_space, skipWs_dump]
            rw [ihQ y ys rest (fun z hz => hwf z (by simp [hz]))
              (by simp only [fuelE, List.map_cons, List.sum_cons] at hf ⊢; omega)]
            rfl
      · -- object members
        intro k v kvs acc rest hwf hnodup hf
        show parseMembers (f + 1)
          ('"' :: ((k.flatMap escapeChar ++ ['"'])
            ++ (':' :: ' ' :: (dumpVal v
              ++ (dumpObjTail kvs ++ '\x7d' :: rest))))) acc = _
        simp only [parseMembers, if_true]
        rw [show (k.flatMap escapeChar ++ ['"'])
              ++ (':' :: ' ' :: (dumpVal v
                ++ (dumpObjTail kvs ++ '\x7d' :: rest)))
            = k.flatMap escapeChar
              ++ '"' :: (':' :: ' ' :: (dumpVal v
                ++ (dumpObjTail kvs ++ '\x7d' :: rest))) from by simp]
        rw [parseStrBody_dump]
        simp only [Option.some_bind]
        rw [skipWs_cons_of_not_ws _ (by decide)]
        simp only [if_pos rfl]
        have hfv : fuelV v ≤ f := by
          simp only [fuelM, List.map_cons, List.sum_cons] at hf
          omega
        rw [skipWs_space, skipWs_dump]
        rw [ihP v (dumpObjTail kvs ++ '\x7d' :: rest) (hwf (k, v) (by simp))
          hfv (numBoundary_objTail kvs rest)]
        simp only [Option.some_bind]
        have hfresh : ∀ kv ∈ acc, kv.1 ≠ k := by
          have hn := hnodup
          rw [List.map_append, List.map_cons, List.nodup_append] at hn
          intro kv hkv heq
          exact hn.2.2 (List.mem_map_of_mem _ hkv) (by simp [heq])
        rw [dictInsert_fresh acc k v hfresh]
        cases kvs with
        | nil =>
            rw [show dumpObjTail [] ++ '\x7d' :: rest = '\x7d' :: rest from by
              simp [dumpObjTail]]
            rw [skipWs_cons_of_not_ws _ (by decide)]
            simp
        | cons kv2 kvs2 =>
            obtain ⟨k2, v2⟩ := kv2
            rw [show dumpObjTail ((k2, v2) :: kvs2) ++ '\x7d' :: rest
                = ',' :: (' ' :: (dumpStr k2 ++ ':' :: ' ' :: (dumpVal v2
                  ++ (dumpObjTail kvs2 ++ '\x7d' :: rest)))) from by
              simp [dumpObjTail]]
            rw [skipWs_cons_of_not_ws _ (by decide)]
            simp only [if_pos rfl]
            rw [skipWs_space]
            rw [show skipWs (dumpStr k2 ++ ':' :: ' ' :: (dumpVal v2
                  ++ (dumpObjTail kvs2 ++ '\x7d' :: rest)))
                = dumpStr k2 ++ ':' :: ' ' :: (dumpVal v2
                  ++ (dumpObjTail kvs2 ++ '\x7d' :: rest)) from by
              rw [show dumpStr k2 ++ ':' :: ' ' :: (dumpVal v2
                    ++ (dumpObjTail kvs2 ++ '\x7d' :: rest))
                  = '"' :: ((k2.flatMap escapeChar ++ ['"'])
                    ++ (':' :: ' ' :: (dumpVal v2
                      ++ (dumpObjTail kvs2 ++ '\x7d' :: rest)))) from by
                simp [dumpStr]]
              exact skipWs_cons_of_not_ws _ (by decide)]
            rw [ihR k2 v2 kvs2 (acc ++ [(k, v)]) rest
              (fun z hz => hwf z (by simp at hz ⊢; tauto))
              (by rw [show (acc ++ [(k, v)]) ++ (k2, v2) :: kvs2
                    = acc ++ (k, v) :: (k2, v2) :: kvs2 from by simp]
                  exact hnodup)
              (by simp only [fuelM, List.map_cons, List.sum_cons] at hf ⊢
                  omega)]
            rw [show (acc ++ [(k, v)]) ++ (k2, v2) :: kvs2
                = acc ++ (k, v) :: (k2, v2) :: kvs2 from by simp]
            simp

theorem fuelE_le_arrTail (xs : List Json)
    (ih : ∀ x ∈ xs, fuelV x ≤ (dumpVal x).length) :
    fuelE xs ≤ (dumpArrTail xs).length := by
  induction xs with
  | nil => simp [fuelE, dumpArrTail]
  | cons y ys ihl =>
      have hy := ih y (by simp)
      have hys := ihl (fun z hz => ih z (by simp [hz]))
      rw [show dumpArrTail (y :: ys)
          = ',' :: ' ' :: (dumpVal y ++ dumpArrTail ys) from by
        simp [dumpArrTail]]
      simp only [fuelE, List.map_cons, List.sum_cons, List.length_cons,
        List.length_append] at *
      omega

theorem fuelM_le_objTail (kvs : List (List Char × Json))
    (ih : ∀ kv ∈ kvs, fuelV kv.2 ≤ (dumpVal kv.2).length) :
    fuelM kvs ≤ (dumpObjTail kvs).length := by
  induction kvs with
  | nil => simp [fuelM, dumpObjTail]
  | cons kv kvs ihl =>
      obtain ⟨k, v⟩ := kv
      have hv := ih (k, v) (by simp)
      have hvs := ihl (fun z hz => ih z (by simp [hz]))
      rw [show dumpObjTail ((k, v) :: kvs)
          = ',' :: ' ' :: (dumpStr k ++ ':' :: ' ' :: dumpVal v
            ++ dumpObjTail kvs) from by simp [dumpObjTail]]
      simp only [fuelM, List.map_cons, List.sum_cons, List.length_cons,
        List.length_append] at *
      omega

theorem fuelV_le_len (v : Json) : fuelV v ≤ (dumpVal v).length := by
  induction v using Json.inductionOn with
  | h0 =>
      rw [show dumpVal Json.null = ['n', 'u', 'l', 'l'] from by simp [dumpVal]]
      simp [fuelV]
  | h1 b =>
      cases b with
      | false =>
          rw [show dumpVal (Json.bool false) = ['f', 'a', 'l', 's', 'e'] from by
            simp [dumpVal]]
          simp [fuelV]
      | true =>
          rw [show dumpVal (Json.bool true) = ['t', 'r', 'u', 'e'] from by
            simp [dumpVal]]
          simp [fuelV]
  | h2 n =>
      rw [show dumpVal (Json.int n) = intRepr n from by simp [dumpVal]]
      obtain ⟨c, cs, hcs, -⟩ := intRepr_head n
      rw [hcs]
      simp [fuelV]
  | h3 s =>
      rw [show dumpVal (Json.str s) = dumpStr s from by simp [dumpVal]]
      simp [fuelV, dumpStr]
  | h4 xs ih =>
      cases xs with
      | nil =>
          rw [show dumpVal (Json.arr []) = ['[', ']'] from by simp [dumpVal]]
          rw [fuelV_arr]
          simp [fuelE]
      | cons x xs =>
          rw [show dumpVal (Json.arr (x :: xs))
              = '[' :: (dumpVal x ++ dumpArrTail xs) ++ [']'] from by
            simp [dumpVal]]
          rw [fuelV_arr]
          have hx := ih x (by simp)
          have hxs := fuelE_le_arrTail xs (fun z hz => ih z (by simp [hz]))
          simp only [fuelE, List.map_cons, List.sum_cons, List.length_append,
            List.length_cons] at *
          omega
  | h5 kvs ih =>
      cases kvs with
      | nil =>
          rw [show dumpVal (Json.obj []) = ['\x7b', '\x7d'] from by
            simp [dumpVal]]
          rw [fuelV_obj]
          simp [fuelM]
      | cons kv kvs =>
          obtain ⟨k, v⟩ := kv
          rw [show dumpVal (Json.obj ((k, v) :: kvs))
              = '\x7b' :: (dumpStr k ++ ':' :: ' ' :: dumpVal v
                ++ dumpObjTail kvs) ++ ['\x7d'] from by simp [dumpVal]]
          rw [fuelV_obj]
          have hv := ih (k, v) (by simp)
          have hvs := fuelM_le_objTail kvs (fun z hz => ih z (by simp [hz]))
          simp only [fuelM, List.map_cons, List.sum_cons, List.length_append,
            List.length_cons] at *
          omega

/-- `json.loads` inverts `json.dumps` on well-formed messages. -/
theorem loads_dump (v : Json) (h : wfJson v = true) :
    loads (dumpVal v) = some v := by
  unfold loads
  rw [show skipWs (dumpVal v) = dumpVal v from by
    have := skipWs_dump v []
    simpa using this]
  have hfv : fuelV v ≤ (dumpVal v).length + 1 := by
    have := fuelV_le_len v
    omega
  have hmain := (parse_dump_main ((dumpVal v).length + 1)).1 v [] h hfv trivial
  rw [show dumpVal v ++ [] = dumpVal v from by simp] at hmain
  rw [hmain]
  rfl

/-! ### ASCII and framing -/

theorem hexDigit_ascii {d : Nat} (h : d < 16) : (hexDigit d).toNat < 0x80 := by
  interval_cases d <;> decide

theorem hex4_ascii (n : Nat) : ∀ x ∈ hex4 n, x.toNat < 0x80 := by
  intro x hx
  rcases List.mem_cons.mp hx with rfl | hx
  · exact hexDigit_ascii (by omega)
  rcases List.mem_cons.mp hx with rfl | hx
  · exact hexDigit_ascii (by omega)
  rcases List.mem_cons.mp hx with rfl | hx
  · exact hexDigit_ascii (by omega)
  rw [List.mem_singleton] at hx
  subst hx
  exact hexDigit_ascii (by omega)

theorem escapeChar_ascii (c : Char) : ∀ x ∈ escapeChar c, x.toNat < 0x80 := by
  unfold escapeChar
  split_ifs with h1 h2 h3 h4 h5 h6 h7 h8 h9
  · intro x hx; fin_cases hx <;> decide
  · intro x hx; fin_cases hx <;> decide
  · intro x hx; fin_cases hx <;> decide
  · intro x hx; fin_cases hx <;> decide
  · intro x hx; fin_cases hx <;> decide
  · intro x hx; fin_cases hx <;> decide
  · intro x hx; fin_cases hx <;> decide
  · intro x hx
    rw [List.mem_singleton] at hx
    subst hx
    omega
  · intro x hx
    rcases List.mem_cons.mp hx with rfl | hx
    · decide
    rcases List.mem_cons.mp hx with rfl | hx
    · decide
    exact hex4_ascii _ x hx
  · intro x hx
    rcases List.mem_append.mp hx with hx | hx
    · rcases List.mem_cons.mp hx with rfl | hx
      · decide
      rcases List.mem_cons.mp hx with rfl | hx
      · decide
      exact hex4_ascii _ x hx
    · rcases List.mem_cons.mp hx with rfl | hx
      · decide
      rcases List.mem_cons.mp hx with rfl | hx
      · decide
      exact hex4_ascii _ x hx

theorem dumpStr_ascii (s : List Char)
    (hk : ∀ x ∈ s.flatMap escapeChar, x.toNat < 0x80) :
    ∀ x ∈ dumpStr s, x.toNat < 0x80 := by
  intro x hx
  rw [dumpStr] at hx
  rcases List.mem_cons.mp hx with rfl | hx
  · decide
  rcases List.mem_append.mp hx with hx | hx
  · exact hk x hx
  · rw [List.mem_singleton] at hx
    subst hx
    decide

theorem flatMap_escape_ascii (s : List Char) :
    ∀ x ∈ s.flatMap escapeChar, x.toNat < 0x80 := by
  intro x hx
  rw [List.mem_flatMap] at hx
  obtain ⟨c, -, hc⟩ := hx
  exact escapeChar_ascii c x hc

theorem intRepr_ascii (n : Int) : ∀ x ∈ intRepr n, x.toNat < 0x80 := by
  have hnat : ∀ m : Nat, ∀ x ∈ natRepr m, x.toNat < 0x80 := by
    intro m x hx
    by_cases h : m = 0
    · subst h
      simp [natRepr] at hx
      subst hx
      decide
    · simp only [natRepr, h, if_false] at hx
      have := (natDigits_spec m).1 x hx
      have := isDig_toNat this
      omega
  intro x hx
  unfold intRepr at hx
  split_ifs at hx with h
  · rcases List.mem_cons.mp hx with h2 | h2
    · subst h2; decide
    · exact hnat _ x h2
  · exact hnat _ x hx

theorem arrTail_ascii (xs : List Json)
    (ih : ∀ x ∈ xs, ∀ y ∈ dumpVal x, y.toNat < 0x80) :
    ∀ y ∈ dumpArrTail xs, y.toNat < 0x80 := by
  induction xs with
  | nil => simp [dumpArrTail]
  | cons z zs ihl =>
      intro y hy
      rw [show dumpArrTail (z :: zs)
          = ',' :: ' ' :: (dumpVal z ++ dumpArrTail zs) from by
        simp [dumpArrTail]] at hy
      rcases List.mem_cons.mp hy with rfl | hy
      · decide
      rcases List.mem_cons.mp hy with rfl | hy
      · decide
      rcases List.mem_append.mp hy with hy | hy
      · exact ih z (by simp) y hy
      · exact ihl (fun a ha => ih a (by simp [ha])) y hy

theorem objTail_ascii (kvs : List (List Char × Json))
    (ih : ∀ kv ∈ kvs, ∀ y ∈ dumpVal kv.2, y.toNat < 0x80) :
    ∀ y ∈ dumpObjTail kvs, y.toNat < 0x80 := by
  induction kvs with
  | nil => simp [dumpObjTail]
  | cons kv kvs ihl =>
      obtain ⟨k, v⟩ := kv
      intro y hy
      rw [show dumpObjTail ((k, v) :: kvs)
          = ',' :: ' ' :: (dumpStr k ++ ':' :: ' ' :: dumpVal v
            ++ dumpObjTail kvs) from by simp [dumpObjTail]] at hy
      rcases List.mem_cons.mp hy with rfl | hy
      · decide
      rcases List.mem_cons.mp hy with rfl | hy
      · decide
      rcases List.mem_append.mp hy with hy | hy
      · rcases List.mem_append.mp hy with hy | hy
        · exact dumpStr_ascii k (flatMap_escape_ascii k) y hy
        rcases List.mem_cons.mp hy with rfl | hy
        · decide
        rcases List.mem_cons.mp hy with rfl | hy
        · decide
        exact ih (k, v) (by simp) y hy
      · exact ihl (fun a ha => ih a (by simp [ha])) y hy

/-- The `json.dumps` output is pure ASCII (`ensure_ascii=True`). -/
theorem dump_ascii (v : Json) : ∀ y ∈ dumpVal v, y.toNat < 0x80 := by
  induction v using Json.inductionOn with
  | h0 =>
      rw [show dumpVal Json.null = ['n', 'u', 'l', 'l'] from by simp [dumpVal]]
      decide
  | h1 b =>
      cases b with
      | false =>
          rw [show dumpVal (Json.bool false) = ['f', 'a', 'l', 's', 'e'] from by
            simp [dumpVal]]
          decide
      | true =>
          rw [show dumpVal (Json.bool true) = ['t', 'r', 'u', 'e'] from by
            simp [dumpVal]]
          decide
  | h2 n =>
      rw [show dumpVal (Json.int n) = intRepr n from by simp [dumpVal]]
      exact intRepr_ascii n
  | h3 s =>
      rw [show dumpVal (Json.str s) = dumpStr s from by simp [dumpVal]]
      exact dumpStr_ascii s (flatMap_escape_ascii s)
  | h4 xs ih =>
      cases xs with
      | nil =>
          rw [show dumpVal (Json.arr []) = ['[', ']'] from by simp [dumpVal]]
          decide
      | cons x xs =>
          rw [show dumpVal (Json.arr (x :: xs))
              = '[' :: (dumpVal x ++ dumpArrTail xs) ++ [']'] from by
            simp [dumpVal]]
          intro y hy
          rcases List.mem_cons.mp hy with rfl | hy
          · decide
          rcases List.mem_append.mp hy with hy | hy
          · rcases List.mem_append.mp hy with hy | hy
            · exact ih x (by simp) y hy
            · exact arrTail_ascii xs (fun a ha => ih a (by simp [ha])) y hy
          · rw [List.mem_singleton] at hy
            subst hy
            decide
  | h5 kvs ih =>
      cases kvs with
      | nil =>
          rw [show dumpVal (Json.obj []) = ['\x7b', '\x7d'] from by
            simp [dumpVal]]
          decide
      | cons kv kvs =>
          obtain ⟨k, v⟩ := kv
          rw [show dumpVal (Json.obj ((k, v) :: kvs))
              = '\x7b' :: (dumpStr k ++ ':' :: ' ' :: dumpVal v
                ++ dumpObjTail kvs) ++ ['\x7d'] from by simp [dumpVal]]
          intro y hy
          rcases List.mem_cons.mp hy with rfl | hy
          · decide
          rcases List.mem_append.mp hy with hy | hy
          · rcases List.mem_append.mp hy with hy | hy
            · rcases List.mem_append.mp hy with hy | hy
              · exact dumpStr_ascii k (flatMap_escape_ascii k) y hy
              rcases List.mem_cons.mp hy with rfl | hy
              · decide
              rcases List.mem_cons.mp hy with rfl | hy
              · decide
              exact ih (k, v) (by simp) y hy
            · exact objTail_ascii kvs (fun a ha => ih a (by simp [ha])) y hy
          · rw [List.mem_singleton] at hy
            subst hy
            decide

theorem utf8Encode_ascii (s : List Char) (h : ∀ c ∈ s, c.toNat < 0x80) :
    utf8Encode s = s.map Char.toNat := by
  induction s with
  | nil => rfl
  | cons c cs ih =>
      have hc : utf8EncodeChar c = [c.toNat] := by
        unfold utf8EncodeChar
        rw [if_pos (h c (by simp))]
      simp only [utf8Encode, List.flatMap_cons, List.map_cons]
      rw [hc]
      simp only [List.singleton_append]
      congr 1
      exact ih (fun x hx => h x (by simp [hx]))

theorem utf8Step_lt (b : Nat) (rest : List Nat) (hb : b < 0x80) :
    utf8Step b rest = some (b, rest) := by
  unfold utf8Step
  rw [if_pos hb]

theorem utf8DecodeF_cons (fuel b n : Nat) (rest rest2 : List Nat)
    (hstep : utf8Step b rest = some (n, rest2)) :
    utf8DecodeF (fuel + 1) (b :: rest)
      = (utf8DecodeF fuel rest2).map (Char.ofNat n :: ·) := by
  simp only [utf8DecodeF, hstep]

theorem utf8DecodeF_ascii (fuel : Nat) (bs : List Nat) (hlen : bs.length ≤ fuel)
    (h : ∀ b ∈ bs, b < 0x80) :
    utf8DecodeF fuel bs = some (bs.map Char.ofNat) := by
  induction fuel generalizing bs with
  | zero =>
      cases bs with
      | nil => rfl
      | cons b rest => simp at hlen
  | succ fuel ih =>
      cases bs with
      | nil => rfl
      | cons b rest =>
          rw [utf8DecodeF_cons fuel b b rest rest
            (utf8Step_lt b rest (h b (by simp)))]
          rw [ih rest (by simp at hlen; omega)
            (fun x hx => h x (by simp [hx]))]
          rfl

theorem utf8Decode_ascii (bs : List Nat) (h : ∀ b ∈ bs, b < 0x80) :
    utf8Decode bs = some (bs.map Char.ofNat) :=
  utf8DecodeF_ascii bs.length bs le_rfl h

theorem map_ofNat_toNat (s : List Char) :
    (s.map Char.toNat).map Char.ofNat = s := by
  induction s with
  | nil => rfl
  | cons c cs ih =>
      simp only [List.map_cons, Char.ofNat_toNat]
      rw [ih]

theorem unpack_pack {n : Nat} (h : n < 2 ^ 32) :
    packLen n = some [n % 256, n / 256 % 256, n / 65536 % 256,
      n / 16777216 % 256]
    ∧ unpackLen (n % 256) (n / 256 % 256) (n / 65536 % 256)
        (n / 16777216 % 256) = n := by
  constructor
  · unfold packLen
    rw [if_pos h]
  · unfold unpackLen
    omega

/-- Framing roundtrip for an arbitrary well-formed message: the reader
returns the message itself when it is an object, `none` otherwise (the
logging line's `message.get` raises `AttributeError` on a non-dict). -/
theorem read_send (v : Json) (rest : List Nat) (hwf : wfJson v = true)
    (hlen : (dumpVal v).length < 2 ^ 32) :
    read_message (send_message v ++ rest)
      = ((match v with | .obj kvs => some (.obj kvs) | _ => none), rest) := by
  have henc : utf8Encode (dumpVal v) = (dumpVal v).map Char.toNat :=
    utf8Encode_ascii _ (dump_ascii v)
  have hplen : (utf8Encode (dumpVal v)).length = (dumpVal v).length := by
    rw [henc, List.length_map]
  have hL : (utf8Encode (dumpVal v)).length < 2 ^ 32 := by
    rw [hplen]; exact hlen
  obtain ⟨hpack, hunpack⟩ := unpack_pack hL
  have hsend : send_message v
      = [(utf8Encode (dumpVal v)).length % 256,
         (utf8Encode (dumpVal v)).length / 256 % 256,
         (utf8Encode (dumpVal v)).length / 65536 % 256,
         (utf8Encode (dumpVal v)).length / 16777216 % 256]
        ++ utf8Encode (dumpVal v) := by
    simp only [send_message]
    rw [hpack]
  rw [hsend]
  simp only [List.cons_append, List.nil_append]
  simp only [read_message]
  rw [hunpack, List.take_left, List.drop_left]
  rw [henc]
  rw [utf8Decode_ascii ((dumpVal v).map Char.toNat) (by
    intro b hb
    rw [List.mem_map] at hb
    obtain ⟨c, hc, rfl⟩ := hb
    exact dump_ascii v c hc)]
  rw [map_ofNat_toNat]
  simp only [loads_dump v hwf]
  cases v <;> rfl

/-- C8: the frame writer followed by the frame reader is NOT the identity
on every JSON-serializable message: a top-level array survives
serialization but the reader returns `None` for it (the logging line calls
`message.get` on the decoded value, raising `AttributeError` for a
non-dict, and the blanket `except` swallows it), so the claimed roundtrip
fails for `[]`. -/
theorem claim_C8_counterexample :
    read_message (send_message (Json.arr []) ++ []) = (none, [])
    ∧ (none, ([] : List Nat)) ≠ (some (Json.arr []), ([] : List Nat)) := by
  constructor
  · have h := read_send (Json.arr []) [] (by simp [wfJson])
      (by rw [show dumpVal (Json.arr []) = ['[', ']'] from by simp [dumpVal]]
          decide)
    simpa using h
  · simp

/-- C8 (amended): for object messages — the only shape the host ever sends
or dispatches — with distinct keys, whose serialized payload is shorter
than `2^32` bytes, writing a frame and then reading it back yields exactly
the original message and leaves the rest of the stream untouched. -/
theorem claim_C8_amended (kvs : List (List Char × Json)) (rest : List Nat)
    (hwf : wfJson (Json.obj kvs) = true)
    (hlen : (dumpVal (Json.obj kvs)).length < 2 ^ 32) :
    read_message (send_message (Json.obj kvs) ++ rest)
      = (some (Json.obj kvs), rest) := by
  have h := read_send (Json.obj kvs) rest hwf hlen
  simpa using h

/-- C8 witness: the roundtrip evaluated on the concrete status request
`\x7b"command": "get_status"\x7d` with two trailing stream bytes. -/
theorem claim_C8_amended_witness :
    wfJson (Json.obj [("command".toList, Json.str "get_status".toList)]) = true
    ∧ (dumpVal (Json.obj
        [("command".toList, Json.str "get_status".toList)])).length < 2 ^ 32
    ∧ read_message (send_message (Json.obj
          [("command".toList, Json.str "get_status".toList)]) ++ [9, 9])
        = (some (Json.obj [("command".toList, Json.str "get_status".toList)]),
           [9, 9]) := by
  have hwf : wfJson (Json.obj
      [("command".toList, Json.str "get_status".toList)]) = true := by
    rw [wfJson_obj]
    constructor
    · decide
    · intro kv hkv
      rw [List.mem_singleton] at hkv
      subst hkv
      simp [wfJson]
  have hlen : (dumpVal (Json.obj
      [("command".toList, Json.str "get_status".toList)])).length < 2 ^ 32 := by
    rw [show dumpVal (Json.obj
          [("command".toList, Json.str "get_status".toList)])
        = '\x7b' :: (dumpStr "command".toList ++ ':' :: ' '
            :: dumpVal (Json.str "get_status".toList) ++ dumpObjTail [])
          ++ ['\x7d'] from by simp [dumpVal]]
    rw [show dumpVal (Json.str "get_status".toList)
        = dumpStr "get_status".toList from by simp [dumpVal]]
    rw [show dumpObjTail ([] : List (List Char × Json)) = [] from by
      simp [dumpObjTail]]
    decide
  exact ⟨hwf, hlen,
    claim_C8_amended [("command".toList, Json.str "get_status".toList)]
      [9, 9] hwf hlen⟩

end Wire

namespace Host

open PyVal Wire

/-! ### `NativeMessagingHost` (native_host.py)

State machine of the dispatcher thread plus the recording coroutines
scheduled on the event-loop thread.  Collaborators reached through
`self.workflow` / `self.storage` are an environment of behaviours, as in
the `Pipeline` embedding; `Config` is modelled with no environment
variables and no `.env` file (the repository ships neither), so
`Config.SCREENSHOT_INTERVAL` is the class attribute, initially `180`. -/

/-- Outcome of one `workflow.run_single_cycle()` awaited by the host: the
coroutine returns a result dict, is still running at the 30-second mark,
or raises. -/
inductive CycleOutcome where
  | completes (result : Json)
  | timesOut
  | raises (msg : List Char)

/-- Collaborator behaviours: the `n`-th cycle's outcome, the storage
query results, and `workflow.get_statistics()`. -/
structure Env where
  cycles : Nat → CycleOutcome
  get_recent : Json → List Json
  by_date : Json → List Json
  load_acts : List Json
  statistics : Json

/-- Position of a recording coroutine between its await points
(native_host.py lines 218-247): scheduled but not yet started, testing
`while self.is_recording`, inside `await run_single_cycle()`, inside
`await asyncio.sleep(interval)`, or returned. -/
inductive LoopPhase where
  | startup
  | checkFlag
  | runCycle
  | sleeping
  | exited
deriving DecidableEq

/-- One scheduled `start_continuous_recording` coroutine together with the
cancellation flag of the future returned by
`asyncio.run_coroutine_threadsafe`. -/
structure RecTask where
  id : Nat
  interval : Json
  phase : LoopPhase
  cancelRequested : Bool
deriving DecidableEq

/-- Host state: the `NativeMessagingHost` attributes, the scheduled
coroutines, and instrumentation counters (`cycleCount` indexes the
behaviour oracle; `completedCycles`/`abortedCycles` observe whether each
entered cycle finished or was torn down by cancellation). -/
structure HostState where
  is_recording : Bool := false
  recording_task : Option Nat := none
  tasks : List RecTask := []
  nextId : Nat := 0
  cycleCount : Nat := 0
  completedCycles : Nat := 0
  abortedCycles : Nat := 0
  configInterval : Json := .int 180
  apiKey : Option Json := none
  modelName : Option Json := none
deriving DecidableEq

def initHost : HostState := {}

/-- `dict.get(key)` on a decoded message (the host only calls it on the
dicts produced by `_read_message`). -/
def getField (m : Json) (k : List Char) : Option Json :=
  match m with
  | .obj kvs => (kvs.find? (fun kv => decide (kv.1 = k))).map (fun kv => kv.2)
  | _ => none

/-- Python truthiness of a JSON value. -/
def pyTruthy : Json → Bool
  | .null => false
  | .bool b => b
  | .int n => decide (n ≠ 0)
  | .str s => decide (s ≠ [])
  | .arr xs => decide (xs ≠ [])
  | .obj kvs => decide (kvs ≠ [])

def pyReprStr (s : List Char) : List Char := '\'' :: (s ++ ['\''])

mutual
/-- Python `repr` of a JSON value (string escaping elided: no message
exercised by a theorem reaches the quoted cases). -/
def pyRepr : Json → List Char
  | .null => "None".toList
  | .bool true => "True".toList
  | .bool false => "False".toList
  | .int n => intRepr n
  | .str s => pyReprStr s
  | .arr [] => "[]".toList
  | .arr (x :: xs) => '[' :: (pyRepr x ++ pyReprArrTail xs) ++ [']']
  | .obj [] => "\x7b\x7d".toList
  | .obj ((k, v) :: kvs) =>
      '\x7b' :: (pyReprStr k ++ ':' :: ' ' :: pyRepr v ++ pyReprObjTail kvs)
        ++ ['\x7d']

def pyReprArrTail : List Json → List Char
  | [] => []
  | x :: xs => ',' :: ' ' :: (pyRepr x ++ pyReprArrTail xs)

def pyReprObjTail : List (List Char × Json) → List Char
  | [] => []
  | (k, v) :: kvs =>
      ',' :: ' ' :: (pyReprStr k ++ ':' :: ' ' :: pyRepr v ++ pyReprObjTail kvs)
end

/-- Python `str()` as used by an f-string: strings verbatim, containers by
`repr`. -/
def pyFormat (v : Json) : List Char :=
  match v with
  | .str s => s
  | other => pyRepr other

/-- Python string `<=` (code-point lexicographic). -/
def strLe : List Char → List Char → Bool
  | [], _ => true
  | _ :: _, [] => false
  | a :: as, b :: bs => if a < b then true else if b < a then false else strLe as bs

/-- Python `a <= b` on JSON scalars; mixed or container types raise
`TypeError` (bool counts as int). -/
def pyLe (a b : Json) : Except (List Char) Bool :=
  match a, b with
  | .str s, .str t => .ok (strLe s t)
  | .int m, .int n => .ok (decide (m ≤ n))
  | .int m, .bool c => .ok (decide (m ≤ (if c then 1 else 0)))
  | .bool c, .int n => .ok (decide ((if c then (1 : Int) else 0) ≤ n))
  | .bool c, .bool d => .ok (decide ((if c then (1 : Int) else 0) ≤ (if d then 1 else 0)))
  | _, _ => .error "'<=' not supported between instances".toList

/-- Python `a[k]` for a string key: dict lookup (`KeyError` renders as the
repr of the key), everything else a `TypeError`. -/
def pyIndexStr (a : Json) (k : List Char) : Except (List Char) Json :=
  match a with
  | .obj kvs =>
      match (kvs.find? (fun kv => decide (kv.1 = k))).map (fun kv => kv.2) with
      | some v => .ok v
      | none => .error (pyReprStr k)
  | .arr _ => .error "list indices must be integers or slices, not str".toList
  | .str _ => .error "string indices must be integers".toList
  | _ => .error "object is not subscriptable".toList

def strStarts : List Char → List Char → Bool
  | _, [] => true
  | [], _ :: _ => false
  | a :: as, b :: bs => decide (a = b) && strStarts as bs

def strHasSub : List Char → List Char → Bool
  | [], needle => needle.isEmpty
  | c :: t, needle => strStarts (c :: t) needle || strHasSub t needle

/-- Python `k in a`: dict key test, list membership, substring test on a
string; `TypeError` otherwise. -/
def pyContains (a : Json) (k : List Char) : Except (List Char) Bool :=
  match a with
  | .obj kvs => .ok (kvs.any (fun kv => decide (kv.1 = k)))
  | .arr xs => .ok (xs.any (fun x => decide (x = .str k)))
  | .str s => .ok (strHasSub s k)
  | _ => .error "argument is not iterable".toList

/-- `Config.get_screenshot_interval()` (config.py line 98) with no
`SCREENSHOT_INTERVAL` environment variable: `int(Config.SCREENSHOT_INTERVAL)`
on whatever value a handler last stored there. -/
def get_screenshot_interval (st : HostState) : Except (List Char) Int :=
  match PyVal.pyInt st.configInterval with
  | .ok n => .ok n
  | .error (PyVal.PyErr.valueError m) => .error m.toList
  | .error (PyVal.PyErr.typeError m) => .error m.toList

/-- `NativeMessagingHost._handle_start_recording` (lines 201-254).  The
guard reads `self.is_recording` synchronously, but `is_recording = True`
only happens inside the coroutine (line 220) once the event-loop thread
runs it, so scheduling here only appends a task in `startup` phase. -/
def handle_start_recording (st : HostState) (msg : Json) :
    Except (List Char) (HostState × Json) :=
  if st.is_recording then
    .ok (st, .obj [("command".toList, .str "start_recording".toList),
                   ("success".toList, .bool false),
                   ("error".toList, .str "Recording is already running".toList)])
  else
    match get_screenshot_interval st with
    | .error e => .error e
    | .ok cur =>
      let interval := (getField msg "interval".toList).getD (.int cur)
      let st1 := if interval ≠ Json.int cur
        then { st with configInterval := interval } else st
      .ok ({ st1 with
              tasks := st1.tasks ++ [⟨st1.nextId, interval, .startup, false⟩],
              nextId := st1.nextId + 1,
              recording_task := some st1.nextId },
           .obj [("command".toList, .str "start_recording".toList),
                 ("success".toList, .bool true),
                 ("interval".toList, interval),
                 ("message".toList, .str "Recording started".toList)])

/-- Marks the future of task `tid` cancelled (`future.cancel()`). -/
def markCancel (st : HostState) (tid : Nat) : HostState :=
  let newTasks := st.tasks.map
    (fun t => if t.id = tid then { t with cancelRequested := true } else t)
  { st with tasks := newTasks }

/-- `NativeMessagingHost._handle_stop_recording` (lines 256-280): clears
`is_recording` immediately and requests cancellation of the stored task. -/
def handle_stop_recording (st : HostState) : HostState × Json :=
  if st.is_recording then
    let st1 := { st with is_recording := false }
    let st2 := match st1.recording_task with
      | some tid => markCancel st1 tid
      | none => st1
    (st2, .obj [("command".toList, .str "stop_recording".toList),
                ("success".toList, .bool true),
                ("message".toList, .str "Recording stopped".toList)])
  else
    (st, .obj [("command".toList, .str "stop_recording".toList),
               ("success".toList, .bool false),
               ("error".toList, .str "Recording is not running".toList)])

/-- `NativeMessagingHost._handle_capture_now` (lines 282-321):
`future.result(timeout=30)` blocks the dispatcher; a timeout becomes the
`"Capture timeout"` error response, an exception becomes `str(e)`. -/
def handle_capture_now (env : Env) (st : HostState) : HostState × Json :=
  match env.cycles st.cycleCount with
  | .completes result =>
      if pyTruthy ((getField result "success".toList).getD (.bool false)) then
        ({ st with cycleCount := st.cycleCount + 1 },
         .obj [("command".toList, .str "capture_now".toList),
               ("success".toList, .bool true),
               ("activity".toList, .obj
                 [("timestamp".toList,
                   (getField result "timestamp".toList).getD .null),
                  ("description".toList,
                   (getField result "activity_description".toList).getD .null),
                  ("screenshot_path".toList,
                   (getField result "screenshot_path".toList).getD .null)])])
      else
        ({ st with cycleCount := st.cycleCount + 1 },
         .obj [("command".toList, .str "capture_now".toList),
               ("success".toList, .bool false),
               ("error".toList,
                (getField result "error".toList).getD
                  (.str "Capture failed".toList))])
  | .timesOut =>
      ({ st with cycleCount := st.cycleCount + 1 },
       .obj [("command".toList, .str "capture_now".toList),
             ("success".toList, .bool false),
             ("error".toList, .str "Capture timeout".toList)])
  | .raises e =>
      ({ st with cycleCount := st.cycleCount + 1 },
       .obj [("command".toList, .str "capture_now".toList),
             ("success".toList, .bool false),
             ("error".toList, .str e)])

/-- `NativeMessagingHost._handle_get_activities` (lines 323-338). -/
def handle_get_activities (env : Env) (st : HostState) (msg : Json) :
    HostState × Json :=
  let limit := (getField msg "limit".toList).getD (.int 10)
  let date := (getField msg "date".toList).getD .null
  let activities := if pyTruthy date then env.by_date date
    else env.get_recent limit
  (st, .obj [("command".toList, .str "get_activities".toList),
             ("success".toList, .bool true),
             ("activities".toList, .arr activities),
             ("count".toList, .int activities.length)])

/-- The chained comparison `start_time <= activity["timestamp"] <= end_time`
of `_handle_query_time_range`, folded over the stored activities; a raised
`KeyError`/`TypeError` propagates to `_process_message`. -/
def filterTime (startT endT : Json) : List Json → Except (List Char) (List Json)
  | [] => .ok []
  | a :: as => do
      let ts ← pyIndexStr a "timestamp".toList
      let b1 ← pyLe startT ts
      let keep ← if b1 then pyLe ts endT else pure false
      let rest ← filterTime startT endT as
      .ok (if keep then a :: rest else rest)

/-- `NativeMessagingHost._handle_query_time_range` (lines 340-407); the
inner `query_ai` coroutine returns immediately with the fixed summary
f-string, so its 30-second timeout never fires. -/
def handle_query_time_range (env : Env) (st : HostState) (msg : Json) :
    Except (List Char) (HostState × Json) :=
  let startT := (getField msg "start_time".toList).getD .null
  let endT := (getField msg "end_time".toList).getD .null
  if ¬ pyTruthy startT ∨ ¬ pyTruthy endT then
    .ok (st, .obj [("command".toList, .str "query_time_range".toList),
                   ("success".toList, .bool false),
                   ("error".toList,
                    .str "start_time and end_time are required".toList)])
  else do
    let filtered ← filterTime startT endT env.load_acts
    if filtered.isEmpty then
      .ok (st, .obj [("command".toList, .str "query_time_range".toList),
                     ("success".toList, .bool true),
                     ("summary".toList, .str "该时间段内没有记录的活动".toList),
                     ("activities_count".toList, .int 0)])
    else
      .ok (st, .obj [("command".toList, .str "query_time_range".toList),
                     ("success".toList, .bool true),
                     ("summary".toList,
                      .str ("分析了 ".toList ++ natRepr filtered.length
                        ++ " 条活动记录".toList)),
                     ("activities_count".toList, .int filtered.length),
                     ("time_range".toList,
                      .obj [("start".toList, startT), ("end".toList, endT)])])

/-- `NativeMessagingHost._handle_get_status` (lines 409-421). -/
def handle_get_status (env : Env) (st : HostState) :
    Except (List Char) (HostState × Json) :=
  match get_screenshot_interval st with
  | .error e => .error e
  | .ok cur =>
    .ok (st, .obj [("command".toList, .str "get_status".toList),
                   ("success".toList, .bool true),
                   ("status".toList, .obj
                     [("is_recording".toList, .bool st.is_recording),
                      ("interval".toList, .int cur),
                      ("statistics".toList, env.statistics)])])

/-- `NativeMessagingHost._handle_update_settings` (lines 423-454).  Only
`ValueError` from `int()` is caught; a `TypeError` (e.g. a list interval,
or a non-dict `settings` that survives the `in` test) propagates.  Raises
can only happen before any state change. -/
def handle_update_settings (st : HostState) (msg : Json) :
    Except (List Char) (HostState × Json) := do
  let settings := (getField msg "settings".toList).getD (.obj [])
  let hasInterval ← pyContains settings "interval".toList
  let (st1, upd1, err1) ←
    if hasInterval then do
      let v ← pyIndexStr settings "interval".toList
      match PyVal.pyInt v with
      | .ok n =>
          pure ({ st with configInterval := Json.int n },
            ["interval".toList], ([] : List (List Char)))
      | .error e =>
          match e with
          | PyVal.PyErr.valueError _ =>
              pure (st, ([] : List (List Char)),
                ["Invalid interval value".toList])
          | PyVal.PyErr.typeError m =>
              .error m.toList
    else
      pure (st, ([] : List (List Char)), ([] : List (List Char)))
  let hasApi ← pyContains settings "api_key".toList
  let (st2, upd2) ←
    if hasApi then do
      let v ← pyIndexStr settings "api_key".toList
      pure ({ st1 with apiKey := some v }, upd1 ++ ["api_key".toList])
    else
      pure (st1, upd1)
  let hasModel ← pyContains settings "model_name".toList
  let (st3, upd3) ←
    if hasModel then do
      let v ← pyIndexStr settings "model_name".toList
      pure ({ st2 with modelName := some v }, upd2 ++ ["model_name".toList])
    else
      pure (st2, upd2)
  .ok (st3, .obj [("command".toList, .str "update_settings".toList),
                  ("success".toList, .bool (err1.length = 0)),
                  ("updated".toList, .arr (upd3.map (fun s => .str s))),
                  ("errors".toList,
                   if err1.isEmpty then .null
                   else .arr (err1.map (fun s => .str s)))])

/-- `NativeMessagingHost._handle_get_statistics` (lines 456-464). -/
def handle_get_statistics (env : Env) (st : HostState) : HostState × Json :=
  (st, .obj [("command".toList, .str "get_statistics".toList),
             ("success".toList, .bool true),
             ("statistics".toList, env.statistics)])

/-- `NativeMessagingHost._process_message` (lines 157-199): dispatch on
`message.get('command')`, with the blanket `except` turning a raised
exception into a `success=False` response carrying `str(e)`. -/
def processMessage (env : Env) (st : HostState) (msg : Json) :
    HostState × Json :=
  let command := getField msg "command".toList
  let cmdJson := command.getD .null
  let result : Except (List Char) (HostState × Json) :=
    if command = some (.str "start_recording".toList) then
      handle_start_recording st msg
    else if command = some (.str "stop_recording".toList) then
      .ok (handle_stop_recording st)
    else if command = some (.str "capture_now".toList) then
      .ok (handle_capture_now env st)
    else if command = some (.str "get_activities".toList) then
      .ok (handle_get_activities env st msg)
    else if command = some (.str "query_time_range".toList) then
      handle_query_time_range env st msg
    else if command = some (.str "get_status".toList) then
      handle_get_status env st
    else if command = some (.str "update_settings".toList) then
      handle_update_settings st msg
    else if command = some (.str "get_statistics".toList) then
      .ok (handle_get_statistics env st)
    else
      .ok (st, .obj [("command".toList, cmdJson),
                     ("success".toList, .bool false),
                     ("error".toList,
                      .str ("Unknown command: ".toList ++ pyFormat cmdJson))])
  match result with
  | .ok r => r
  | .error e =>
      (st, .obj [("command".toList, cmdJson),
                 ("success".toList, .bool false),
                 ("error".toList, .str e)])

/-- Replaces the phase of task `tid`. -/
def setPhase (st : HostState) (tid : Nat) (ph : LoopPhase) : HostState :=
  let newTasks := st.tasks.map
    (fun t => if t.id = tid then { t with phase := ph } else t)
  { st with tasks := newTasks }

/-- One scheduling step of the event-loop thread on coroutine `tid`
(native_host.py lines 218-247).  `CancelledError` is delivered whenever
the coroutine is at an await point with its future cancelled — including
in the middle of `await run_single_cycle()`, which tears the in-flight
cycle down (`abortedCycles`); the `except asyncio.CancelledError` and
`except Exception` arms both clear `is_recording`. -/
def stepTask (env : Env) (st : HostState) (tid : Nat) : HostState :=
  match st.tasks.find? (fun t => decide (t.id = tid)) with
  | none => st
  | some t =>
    match t.phase with
    | .exited => st
    | .startup =>
        if t.cancelRequested then setPhase st tid .exited
        else { setPhase st tid .checkFlag with is_recording := true }
    | .checkFlag =>
        if st.is_recording then setPhase st tid .runCycle
        else setPhase st tid .exited
    | .runCycle =>
        if t.cancelRequested then
          let st1 := setPhase st tid .exited
          { st1 with is_recording := false,
                     abortedCycles := st.abortedCycles + 1 }
        else
          match env.cycles st.cycleCount with
          | .completes _ =>
              let st1 := setPhase st tid .sleeping
              { st1 with cycleCount := st.cycleCount + 1,
                         completedCycles := st.completedCycles + 1 }
          | .timesOut => st
          | .raises _ =>
              let st1 := setPhase st tid .exited
              { st1 with is_recording := false,
                         cycleCount := st.cycleCount + 1 }
    | .sleeping =>
        if t.cancelRequested then
          let st1 := setPhase st tid .exited
          { st1 with is_recording := false }
        else setPhase st tid .checkFlag

/-- An interleaving event: a message dispatched by the reader thread, or
one scheduling step of the event-loop thread on a given task. -/
inductive Act where
  | msg (m : Json)
  | step (tid : Nat)

/-- Runs an interleaving, collecting the responses. -/
def simRun (env : Env) : HostState → List Act → HostState × List Json
  | st, [] => (st, [])
  | st, Act.msg m :: as =>
      let p := processMessage env st m
      let q := simRun env p.1 as
      (q.1, p.2 :: q.2)
  | st, Act.step tid :: as => simRun env (stepTask env st tid) as

def findTask (st : HostState) (tid : Nat) : Option RecTask :=
  st.tasks.find? (fun t => decide (t.id = tid))

/-- Number of recording loops currently executing their `while` body. -/
def liveLoops (st : HostState) : Nat :=
  st.tasks.countP (fun t => decide (t.phase = .checkFlag ∨ t.phase = .runCycle
    ∨ t.phase = .sleeping))

/-- The second component of a successfully framed read: all arms drop the
announced length. -/
theorem read_message_snd (b0 b1 b2 b3 : Nat) (tl : List Nat) :
    (Wire.read_message (b0 :: b1 :: b2 :: b3 :: tl)).2
      = tl.drop (Wire.unpackLen b0 b1 b2 b3) := by
  simp only [Wire.read_message]
  cases Wire.utf8Decode (tl.take (Wire.unpackLen b0 b1 b2 b3)) with
  | none => rfl
  | some text =>
      simp only []
      cases Wire.loads text with
      | none => rfl
      | some val => cases val <;> rfl

/-- Reading a frame strictly shortens the stream. -/
theorem read_message_lt (stream : List Nat) (msg : Json) (rest : List Nat)
    (h : Wire.read_message stream = (some msg, rest)) :
    rest.length < stream.length := by
  match stream with
  | [] => simp [Wire.read_message] at h
  | [b0] => simp [Wire.read_message] at h
  | [b0, b1] => simp [Wire.read_message] at h
  | [b0, b1, b2] => simp [Wire.read_message] at h
  | b0 :: b1 :: b2 :: b3 :: tl =>
      have h2 := read_message_snd b0 b1 b2 b3 tl
      rw [h] at h2
      simp only [] at h2
      rw [h2]
      simp only [List.length_drop, List.length_cons]
      omega

/-- `NativeMessagingHost.start` (native_host.py lines 58-83): the read
loop over a closed byte stream, emitting the concatenated stdout bytes.
`_read_message` returning `None` (clean EOF, short header, undecodable
payload, non-dict payload) breaks the loop. -/
def hostRun (env : Env) (st : HostState) (stream : List Nat) : List Nat :=
  match h : Wire.read_message stream with
  | (none, _) => []
  | (some msg, rest) =>
      Wire.send_message (processMessage env st msg).2
        ++ hostRun env (processMessage env st msg).1 rest
termination_by stream.length
decreasing_by exact read_message_lt stream msg rest h

theorem hostRun_none (env : Env) (st : HostState) (stream : List Nat)
    (h : (Wire.read_message stream).1 = none) :
    hostRun env st stream = [] := by
  unfold hostRun
  split
  · rfl
  · rename_i msg rest heq
    rw [heq] at h
    simp at h

theorem hostRun_some (env : Env) (st : HostState) (stream : List Nat)
    (msg : Json) (rest : List Nat)
    (h : Wire.read_message stream = (some msg, rest)) :
    hostRun env st stream
      = Wire.send_message (processMessage env st msg).2
        ++ hostRun env (processMessage env st msg).1 rest := by
  conv_lhs => unfold hostRun
  split
  · rename_i heq
    rw [h] at heq
    simp at heq
  · rename_i msg2 rest2 heq
    rw [h] at heq
    simp only [Prod.mk.injEq, Option.some.injEq] at heq
    obtain ⟨h1, h2⟩ := heq
    rw [h1, h2]

/-! ### Concrete messages and environments -/

def startMsg : Json :=
  .obj [("command".toList, .str "start_recording".toList),
        ("interval".toList, .int 5)]

def stopMsg : Json :=
  .obj [("command".toList, .str "stop_recording".toList)]

def captureMsg : Json :=
  .obj [("command".toList, .str "capture_now".toList)]

/-- The response the dispatcher produces for the synthetic
`\x7b"command": "error"\x7d` message: `"error"` matches no handler, so the
unknown-command branch answers. -/
def protocolError : Json :=
  .obj [("command".toList, .str "error".toList),
        ("success".toList, .bool false),
        ("error".toList, .str "Unknown command: error".toList)]

def startOk5 : Json :=
  .obj [("command".toList, .str "start_recording".toList),
        ("success".toList, .bool true),
        ("interval".toList, .int 5),
        ("message".toList, .str "Recording started".toList)]

/-- Benign collaborators: every cycle completes successfully. -/
def env0 : Env :=
  ⟨fun _ => .completes (.obj [("success".toList, .bool true)]),
   fun _ => [], fun _ => [], [], .null⟩

/-- Collaborators whose cycles never finish within the 30-second budget. -/
def envTimeout : Env := { env0 with cycles := fun _ => CycleOutcome.timesOut }

/-! ### Claims -/

/-- C1: the "at most one Running session" invariant FAILS.  The guard at
line 203 reads `self.is_recording` synchronously, but the flag is only set
inside the coroutine (line 220) once the event-loop thread runs it.  Two
back-to-back `start_recording` commands dispatched before either coroutine
is scheduled both pass the guard: both responses are the full success
response, and after the loop thread runs both coroutines, two recording
loops are live simultaneously. -/
theorem claim_C1_start_race :
    (simRun env0 initHost
        [.msg startMsg, .msg startMsg, .step 0, .step 1]).2
      = [startOk5, startOk5]
    ∧ liveLoops (simRun env0 initHost
        [.msg startMsg, .msg startMsg, .step 0, .step 1]).1 = 2 := by
  constructor
  · rfl
  · rfl

/-- C5: the read loop terminates cleanly at end of stream; a frame whose
payload is valid UTF-8 but not valid JSON yields the synthetic error
command, which dispatch turns into the structured
`Unknown command: error` response with the host state untouched, and the
loop continues on the remaining bytes; a well-formed object frame is then
read back intact and dispatched normally. -/
theorem claim_C5_read_loop (env : Env) (st : HostState)
    (payload rest rest2 : List Nat) (text : List Char)
    (kvs : List (List Char × Json))
    (hlen : payload.length < 2 ^ 32)
    (hutf : utf8Decode payload = some text)
    (hbad : loads text = none)
    (hwf : wfJson (.obj kvs) = true)
    (hdlen : (dumpVal (.obj kvs)).length < 2 ^ 32) :
    hostRun env st [] = []
    ∧ hostRun env st ([payload.length % 256, payload.length / 256 % 256,
          payload.length / 65536 % 256, payload.length / 16777216 % 256]
        ++ payload ++ rest)
      = send_message protocolError ++ hostRun env st rest
    ∧ hostRun env st (send_message (.obj kvs) ++ rest2)
      = send_message (processMessage env st (.obj kvs)).2
        ++ hostRun env (processMessage env st (.obj kvs)).1 rest2 := by
  refine ⟨hostRun_none env st [] rfl, ?_, ?_⟩
  · have hread : read_message
        ([payload.length % 256, payload.length / 256 % 256,
          payload.length / 65536 % 256, payload.length / 16777216 % 256]
          ++ payload ++ rest) = (some errorCmd, rest) := by
      simp only [List.cons_append, List.nil_append]
      simp only [read_message]
      rw [(unpack_pack hlen).2, List.take_left, List.drop_left]
      simp only [hutf, hbad]
    rw [hostRun_some env st _ errorCmd rest hread]
    have hdis : processMessage env st errorCmd = (st, protocolError) := rfl
    rw [hdis]
  · have hread2 : read_message (send_message (.obj kvs) ++ rest2)
        = (some (.obj kvs), rest2) := by
      have h := read_send (.obj kvs) rest2 hwf hdlen
      simpa using h
    exact hostRun_some env st _ (.obj kvs) rest2 hread2

/-- C5 witness: the stream carries the bad frame `\x7bbad` (header `4`)
followed by a valid `stop_recording` frame; the loop answers
`Unknown command: error`, continues, and processes the stop frame. -/
theorem claim_C5_read_loop_witness :
    hostRun env0 initHost [] = []
    ∧ hostRun env0 initHost ([4, 0, 0, 0] ++ [123, 98, 97, 100]
        ++ (send_message stopMsg ++ []))
      = send_message protocolError
        ++ hostRun env0 initHost (send_message stopMsg ++ [])
    ∧ hostRun env0 initHost (send_message stopMsg ++ [])
      = send_message (processMessage env0 initHost stopMsg).2
        ++ hostRun env0 (processMessage env0 initHost stopMsg).1 [] := by
  have hwf : wfJson stopMsg = true := by
    rw [stopMsg, wfJson_obj]
    constructor
    · decide
    · intro kv hkv
      rw [List.mem_singleton] at hkv
      subst hkv
      simp [wfJson]
  have hdlen : (dumpVal stopMsg).length < 2 ^ 32 := by
    rw [show dumpVal stopMsg
        = '\x7b' :: (dumpStr "command".toList ++ ':' :: ' '
            :: dumpVal (Json.str "stop_recording".toList) ++ dumpObjTail [])
          ++ ['\x7d'] from by simp [stopMsg, dumpVal]]
    rw [show dumpVal (Json.str "stop_recording".toList)
        = dumpStr "stop_recording".toList from by simp [dumpVal]]
    rw [show dumpObjTail ([] : List (List Char × Json)) = [] from by
      simp [dumpObjTail]]
    decide
  have h := claim_C5_read_loop env0 initHost [123, 98, 97, 100]
    (send_message stopMsg ++ []) []
    "\x7bbad".toList [("command".toList, .str "stop_recording".toList)]
    (by decide) (by decide) (by decide) (by rw [stopMsg] at hwf; exact hwf)
    (by rw [stopMsg] at hdlen; exact hdlen)
  exact ⟨h.1, h.2.1, h.2.2⟩

/-- C6: the claimed error payload is wrong.  A `capture_now` whose cycle
misses the 30-second deadline is answered with `success=false` as claimed,
but the error field is the literal `"Capture timeout"` (line 314), not
`"timeout"`. -/
theorem claim_C6_counterexample :
    (processMessage envTimeout initHost captureMsg).2
      = .obj [("command".toList, .str "capture_now".toList),
              ("success".toList, .bool false),
              ("error".toList, .str "Capture timeout".toList)]
    ∧ getField (processMessage envTimeout initHost captureMsg).2
        "error".toList ≠ some (.str "timeout".toList) := by
  constructor
  · rfl
  · decide

/-- C6 (amended): whenever the awaited cycle times out, the dispatcher
returns — without raising — the structured response
`success=false, error="Capture timeout"`. -/
theorem claim_C6_amended (env : Env) (st : HostState)
    (h : env.cycles st.cycleCount = CycleOutcome.timesOut) :
    (processMessage env st captureMsg).2
      = .obj [("command".toList, .str "capture_now".toList),
              ("success".toList, .bool false),
              ("error".toList, .str "Capture timeout".toList)] := by
  have hd : processMessage env st captureMsg = handle_capture_now env st := rfl
  rw [hd]
  unfold handle_capture_now
  rw [h]

/-- C6 witness: the timing-out environment at cycle index 7. -/
theorem claim_C6_amended_witness :
    envTimeout.cycles ({ initHost with cycleCount := 7 } : HostState).cycleCount
      = CycleOutcome.timesOut
    ∧ (processMessage envTimeout { initHost with cycleCount := 7 }
        captureMsg).2
      = .obj [("command".toList, .str "capture_now".toList),
              ("success".toList, .bool false),
              ("error".toList, .str "Capture timeout".toList)] :=
  ⟨rfl, claim_C6_amended envTimeout { initHost with cycleCount := 7 } rfl⟩

/-- C7: stop during an executing cycle is NOT cooperative.  After
start and two loop steps the task sits inside `await run_single_cycle()`;
dispatching `stop_recording` clears `is_recording` immediately (line 266,
while the cycle is still in flight) and cancels the future (line 270), so
the next loop step delivers `CancelledError` mid-cycle: the in-flight
cycle is aborted (1 aborted, 0 completed), not allowed to finish. -/
theorem claim_C7_counterexample :
    (simRun env0 initHost
        [.msg startMsg, .step 0, .step 0, .msg stopMsg]).1.is_recording
      = false
    ∧ (findTask (simRun env0 initHost
        [.msg startMsg, .step 0, .step 0, .msg stopMsg]).1 0).map
          (fun t => t.phase) = some LoopPhase.runCycle
    ∧ (simRun env0 initHost
        [.msg startMsg, .step 0, .step 0, .msg stopMsg,
         .step 0]).1.abortedCycles = 1
    ∧ (simRun env0 initHost
        [.msg startMsg, .step 0, .step 0, .msg stopMsg,
         .step 0]).1.completedCycles = 0 := by
  refine ⟨rfl, rfl, rfl, rfl⟩

/-- C7 (amended): `stop_recording` during an executing cycle returns the
success response, marks the session not-recording immediately — before the
loop has observed anything — and requests cancellation of the task; at the
task's next scheduling step the in-flight cycle is torn down
(`abortedCycles` increments, `completedCycles` does not) and the coroutine
exits. -/
theorem claim_C7_amended (env : Env) (st : HostState) (tid : Nat) (i : Json)
    (hrec : st.is_recording = true)
    (htask : st.recording_task = some tid)
    (htasks : st.tasks = [⟨tid, i, LoopPhase.runCycle, false⟩]) :
    (processMessage env st stopMsg).2
      = .obj [("command".toList, .str "stop_recording".toList),
              ("success".toList, .bool true),
              ("message".toList, .str "Recording stopped".toList)]
    ∧ (processMessage env st stopMsg).1.is_recording = false
    ∧ findTask (processMessage env st stopMsg).1 tid
        = some ⟨tid, i, LoopPhase.runCycle, true⟩
    ∧ (stepTask env (processMessage env st stopMsg).1 tid).abortedCycles
        = st.abortedCycles + 1
    ∧ (stepTask env (processMessage env st stopMsg).1 tid).completedCycles
        = st.completedCycles
    ∧ findTask (stepTask env (processMessage env st stopMsg).1 tid) tid
        = some ⟨tid, i, LoopPhase.exited, true⟩ := by
  have hd : processMessage env st stopMsg = handle_stop_recording st := rfl
  have hstop : handle_stop_recording st
      = ({ st with is_recording := false,
                   tasks := [⟨tid, i, LoopPhase.runCycle, true⟩] },
         .obj [("command".toList, .str "stop_recording".toList),
               ("success".toList, .bool true),
               ("message".toList, .str "Recording stopped".toList)]) := by
    unfold handle_stop_recording
    rw [hrec]
    simp only [if_true]
    rw [htask]
    simp only [markCancel, htasks]
    simp
  rw [hd, hstop]
  refine ⟨rfl, rfl, ?_, ?_, ?_, ?_⟩
  · simp [findTask]
  · simp [stepTask, setPhase]
  · simp [stepTask, setPhase]
  · simp [stepTask, setPhase, findTask]

/-- C7 witness: a single mid-cycle task with interval 5. -/
theorem claim_C7_amended_witness :
    ({ is_recording := true, recording_task := some 0,
       tasks := [⟨0, Json.int 5, LoopPhase.runCycle, false⟩] }
        : HostState).is_recording = true
    ∧ (processMessage env0
        { is_recording := true, recording_task := some 0,
          tasks := [⟨0, Json.int 5, LoopPhase.runCycle, false⟩] } stopMsg).2
      = .obj [("command".toList, .str "stop_recording".toList),
              ("success".toList, .bool true),
              ("message".toList, .str "Recording stopped".toList)]
    ∧ (stepTask env0 (processMessage env0
        { is_recording := true, recording_task := some 0,
          tasks := [⟨0, Json.int 5, LoopPhase.runCycle, false⟩] } stopMsg).1
        0).abortedCycles = 1 := by
  have h := claim_C7_amended env0
    { is_recording := true, recording_task := some 0,
      tasks := [⟨0, Json.int 5, LoopPhase.runCycle, false⟩] }
    0 (Json.int 5) rfl rfl rfl
  exact ⟨rfl, h.1, h.2.2.2.1⟩

end Host
